import Mathlib

/-
  Verification development for the WishShare marketplace product-data
  extraction pipeline (backend/app/api/routes/og.py,
  backend/app/core/enhanced_parser.py, backend/app/core/parse_cache.py).

  The Python sources are shallowly embedded: pure helpers become Lean
  functions over String / List Char, JSON values become an inductive type,
  network and browser effects become oracle values supplied through
  environment records, and Python floats are modelled as rationals.
-/

namespace WishShare

/-- Characters treated as whitespace by the Python regex class of whitespace
and by str.strip on the inputs modelled here: the six ASCII whitespace
characters plus the no-break space. -/
def pySpace (c : Char) : Bool :=
  c = ' ' || c = '\t' || c = '\n' || c = '\r' || c = '\x0b' || c = '\x0c' || c = '\u00A0'

/-- Composite of str.strip and the regex substitution that deletes every run
of whitespace: removes every whitespace character of the string. -/
def stripAllWs (l : List Char) : List Char := l.filter (fun c => !pySpace c)

/-- Python lstrip with the character set of the string of slashes: drops the
leading run of slash characters. -/
def lstripSlash (l : List Char) : List Char := l.dropWhile (fun c => c = '/')

/-- The scheme literal of eight characters. -/
def httpSS : List Char := ['h', 't', 't', 'p', 's', ':', '/', '/']

/-- The scheme literal of seven characters. -/
def httpS : List Char := ['h', 't', 't', 'p', ':', '/', '/']

/-- The scheme name with colon, five characters. -/
def schemeH : List Char := ['h', 't', 't', 'p', ':']

/-- The scheme name with colon, six characters. -/
def schemeHS : List Char := ['h', 't', 't', 'p', 's', ':']

/-- One step of the anchored regex group matching one scheme literal: if the
list starts with a scheme literal, return the literal and the remainder. -/
def schemeTok (l : List Char) : Option (List Char × List Char) :=
  if httpSS.isPrefixOf l then some (httpSS, l.drop 8)
  else if httpS.isPrefixOf l then some (httpS, l.drop 7)
  else none

theorem isPrefixOf_length_le {l₁ l₂ : List Char} (h : l₁.isPrefixOf l₂ = true) :
    l₁.length ≤ l₂.length := by
  induction l₁ generalizing l₂ with
  | nil => exact Nat.zero_le _
  | cons a as ih =>
    cases l₂ with
    | nil => simp [List.isPrefixOf] at h
    | cons b bs =>
      simp only [List.isPrefixOf, Bool.and_eq_true] at h
      simpa using ih h.2

/-- Fuel-bounded removal of leading scheme literals: each removed literal
consumes at least seven characters, so the length of the list is enough
fuel; the fuel form keeps the definition kernel-computable. -/
def dropToksF : Nat → List Char → List Char
  | 0, l => l
  | fuel + 1, l =>
    match schemeTok l with
    | some (_, r) => dropToksF fuel r
    | none => l

/-- Removes every further leading scheme literal, as the greedy plus of the
collapse regex does after its first group. -/
def dropToks (l : List Char) : List Char := dropToksF l.length l

/-- The anchored regex substitution collapsing a run of at least two leading
scheme literals to its first one; when fewer than two literals lead the
string it is the identity, which the closed form below also yields. -/
def collapseSchemes (l : List Char) : List Char :=
  match schemeTok l with
  | some (t, r) => t ++ dropToks r
  | none => l

/-- The branch cascade of the normalizer: repair a scheme missing its
slashes, a scheme-relative URL, and a bare host with no scheme. -/
def repairScheme (v : List Char) : List Char :=
  if schemeHS.isPrefixOf v && !(httpSS.isPrefixOf v) then
    httpSS ++ lstripSlash (v.drop 6)
  else if schemeH.isPrefixOf v && !(httpS.isPrefixOf v) then
    httpS ++ lstripSlash (v.drop 5)
  else if ['/', '/'].isPrefixOf v then schemeHS ++ v
  else if !(httpS.isPrefixOf v || httpSS.isPrefixOf v) then httpSS ++ v
  else v

/-- The URL normalizer shared by og.py and enhanced_parser.py, on character
lists: remove all whitespace; repair a scheme missing its slashes, a
scheme-relative URL and a bare host; collapse duplicated scheme literals. -/
def normalizeL (raw : List Char) : List Char :=
  if stripAllWs raw = [] then [] else collapseSchemes (repairScheme (stripAllWs raw))

/-- The URL normalizer of og.py and enhanced_parser.py on strings. -/
def normalizeUrl (s : String) : String := ⟨normalizeL s.data⟩

/-- ASCII decimal digit, the digit class of the price regexes. -/
def pyDigit (c : Char) : Bool := '0' ≤ c && c ≤ '9'

/-- Python str.strip: remove leading and trailing whitespace. -/
def pyStrip (l : List Char) : List Char :=
  ((l.dropWhile pySpace).reverse.dropWhile pySpace).reverse

/-- The cleaning steps of the price parsers: the no-break space becomes a
plain space, then every character that is not a digit, comma, period or
whitespace is deleted (which also deletes the currency symbols that the
source replaces explicitly just before). -/
def compactPrice (l : List Char) : List Char :=
  (l.map (fun c => if c = '\u00A0' then ' ' else c)).filter
    (fun c => pyDigit c || c = ',' || c = '.' || pySpace c)

/-- First match of the regex of a digit followed by digits, whitespace,
periods or commas: the first contiguous digit run with embedded separators. -/
def firstNumRun (l : List Char) : Option (List Char) :=
  match l.dropWhile (fun c => !pyDigit c) with
  | [] => none
  | c :: rest =>
    some (c :: rest.takeWhile (fun x => pyDigit x || pySpace x || x = '.' || x = ','))

/-- Number of occurrences of a character, Python str.count. -/
def countCh (c : Char) (l : List Char) : Nat := (l.filter (fun x => x = c)).length

/-- Python str.rfind: index of the last occurrence, or minus one. -/
def rfindPos (c : Char) (l : List Char) : Int :=
  match (l.reverse).findIdx? (fun x => x = c) with
  | none => -1
  | some i => ((l.length - 1 - i : Nat) : Int)

/-- Decimal separator disambiguation of both price parsers: many commas and
no period strips commas; many periods and no comma strips periods; both
present keeps the rightmost as decimal point; otherwise a comma becomes a
period. -/
def priceSeparators (n0 : List Char) : List Char :=
  let n1 := if countCh ',' n0 > 1 && countCh '.' n0 == 0
    then n0.filter (fun c => c ≠ ',') else n0
  let n2 := if countCh '.' n1 > 1 && countCh ',' n1 == 0
    then n1.filter (fun c => c ≠ '.') else n1
  if countCh ',' n2 > 0 && countCh '.' n2 > 0 then
    if rfindPos ',' n2 > rfindPos '.' n2 then
      (n2.filter (fun c => c ≠ '.')).map (fun c => if c = ',' then '.' else c)
    else n2.filter (fun c => c ≠ ',')
  else n2.map (fun c => if c = ',' then '.' else c)

/-- Numeric value of a digit list. -/
def natVal (l : List Char) : Nat := l.foldl (fun n c => n * 10 + (c.toNat - '0'.toNat)) 0

/-- Python float() on the strings reachable here: optional surrounding
whitespace and sign, digits with at most one embedded period and at least
one digit; exponent forms do not occur in the modelled inputs. -/
def pyFloat (l : List Char) : Option Rat :=
  let t := pyStrip l
  let (sgn, t') : Int × List Char :=
    if t ≠ [] ∧ t.head? = some '-' then (-1, t.tail)
    else if t ≠ [] ∧ t.head? = some '+' then (1, t.tail)
    else (1, t)
  let intPart := t'.takeWhile pyDigit
  let rest := t'.drop intPart.length
  match rest with
  | [] => if intPart = [] then none else some ((sgn * natVal intPart : Int) : Rat)
  | '.' :: frac =>
    if frac.all pyDigit && (intPart ≠ [] || frac ≠ []) then
      some (Rat.divInt (sgn * ((natVal intPart * 10 ^ frac.length + natVal frac : Nat) : Int))
        ((10 ^ frac.length : Nat) : Int))
    else none
  | _ => none

/-- Everything of the og.py price parser before its final float conversion
and positivity gate: strip, clean, first digit run, space removal and
separator disambiguation composed with the float parse. -/
def pricePreFloat (s : String) : Option Rat :=
  let cand := pyStrip s.data
  if cand = [] then none else
  match firstNumRun (compactPrice cand) with
  | none => none
  | some run => pyFloat (priceSeparators (run.filter (fun c => c ≠ ' ')))

/-- The price parser of og.py: returns the parsed value only when positive,
otherwise null. -/
def extractPrice (s : String) : Option Rat :=
  match pricePreFloat s with
  | none => none
  | some v => if 0 < v then some v else none

/-- The price parser of enhanced_parser.py: same cleaning and separator
logic (its extra currency code replacements are subsumed by the character
filter), but no strip of the candidate and no positivity gate. -/
def enhancedExtractPrice (s : String) : Option Rat :=
  if s.data = [] then none else
  match firstNumRun (compactPrice s.data) with
  | none => none
  | some run => pyFloat (priceSeparators (run.filter (fun c => c ≠ ' ')))

/-- JSON values as json.loads returns them. Numbers are modelled as
integers: the JSON-LD documents exercised by the claims carry integer or
string numerics, and nothing below depends on float-typed literals. -/
inductive Json where
  | null
  | bool (b : Bool)
  | num (n : Int)
  | str (s : String)
  | arr (elems : List Json)
  | obj (fields : List (String × Json))

/-- Lookup in a parsed JSON object; json.loads yields unique keys, so the
first match is the dictionary entry. -/
def jLookup : List (String × Json) → String → Option Json
  | [], _ => none
  | (k, v) :: rest, key => if k = key then some v else jLookup rest key

/-- Python dict.get on a parsed object: a stored JSON null is the Python
None, indistinguishable from an absent key for the uses below. -/
def getNN (fs : List (String × Json)) (k : String) : Option Json :=
  match jLookup fs k with
  | some Json.null => none
  | x => x

/-- Python truthiness of a parsed JSON value. -/
def jTruthy : Json → Bool
  | .null => false
  | .bool b => b
  | .num n => n != 0
  | .str s => s != ""
  | .arr xs => !xs.isEmpty
  | .obj fs => !fs.isEmpty

/-- Truthiness of a dict.get result. -/
def optTruthy : Option Json → Bool
  | none => false
  | some j => jTruthy j

/-- Python or of two dict.get results: the first when truthy, else the
second. -/
def pyOrJ (a b : Option Json) : Option Json := if optTruthy a then a else b

/-- Python str.strip on strings, empty becoming None, as the helper
returning cleaned text does for string inputs. -/
def cleanTextS (s : String) : Option String :=
  let c : String := ⟨pyStrip s.data⟩
  if c = "" then none else some c

/-- The helper returning cleaned text of og.py: None unless the value is a
string with nonempty strip. -/
def cleanTextJ : Option Json → Option String
  | some (.str s) => cleanTextS s
  | _ => none

/-- Python str.lower on the alphabets exercised here: ASCII and the Cyrillic
capital range. -/
def pyLower (c : Char) : Char :=
  if 'A' ≤ c ∧ c ≤ 'Z' then Char.ofNat (c.toNat + 32)
  else if 'А' ≤ c ∧ c ≤ 'Я' then Char.ofNat (c.toNat + 32)
  else if c = 'Ё' then 'ё'
  else c

/-- Lowercase of a character list. -/
def lowerL (l : List Char) : List Char := l.map pyLower

/-- Python substring membership, the in operator on strings. -/
def containsSub (needle hay : List Char) : Bool :=
  if needle.isPrefixOf hay then true
  else match hay with
    | [] => false
    | _ :: t => containsSub needle t

/-- ASCII letter test, the letter class of the currency regex. -/
def isAsciiLetter (c : Char) : Bool := ('A' ≤ c && c ≤ 'Z') || ('a' ≤ c && c ≤ 'z')

/-- ASCII uppercase map. -/
def pyUpper (c : Char) : Char :=
  if 'a' ≤ c ∧ c ≤ 'z' then Char.ofNat (c.toNat - 32) else c

/-- Currency normalizer of og.py: strip non-letters, uppercase, keep only an
exact three letter code. -/
def normalizeCurrencyS (s : String) : Option String :=
  let cleaned := (s.data.filter isAsciiLetter).map pyUpper
  if cleaned.length = 3 then some ⟨cleaned⟩ else none

/-- Currency normalizer on a JSON value: non-strings yield None. -/
def normalizeCurrencyJ : Option Json → Option String
  | some (.str s) => normalizeCurrencyS s
  | _ => none

/-- Python rstrip of slashes. -/
def rstripSlash (l : List Char) : List Char :=
  (l.reverse.dropWhile (fun c => c = '/')).reverse

/-- Last segment of a Python split at the separator. -/
def lastSeg (sep : Char) (l : List Char) : List Char :=
  (l.reverse.takeWhile (fun c => c ≠ sep)).reverse

/-- Availability normalizer of og.py: strip; take the last slash segment of
the slash-rstripped value when a slash occurs; then the last hash segment
when a hash occurs; keep letters and underscores; empty becomes None. -/
def normalizeAvailabilityS (s : String) : Option String :=
  let cleaned := pyStrip s.data
  if cleaned = [] then none else
  let c1 := if cleaned.contains '/' then lastSeg '/' (rstripSlash cleaned) else cleaned
  let c2 := if c1.contains '#' then lastSeg '#' c1 else c1
  let c3 := c2.filter (fun c => isAsciiLetter c || c = '_')
  if c3 = [] then none else some ⟨c3⟩

/-- Availability normalizer on a JSON value: non-strings yield None. -/
def normalizeAvailabilityJ : Option Json → Option String
  | some (.str s) => normalizeAvailabilityS s
  | _ => none

/-- Product-like type test of og.py: the type value, string or array of
strings, contains the word product case-insensitively. -/
def isProductLikeType : Option Json → Bool
  | some (.str s) => containsSub "product".data (lowerL s.data)
  | some (.arr xs) => xs.any (fun x => match x with
      | .str s => containsSub "product".data (lowerL s.data)
      | _ => false)
  | _ => false

/-- Shape heuristic of og.py: a truthy name together with one of the product
signal keys. -/
def hasProductShape (fs : List (String × Json)) : Bool :=
  optTruthy (jLookup fs "name") &&
    (optTruthy (jLookup fs "offers") || optTruthy (jLookup fs "brand") ||
     optTruthy (jLookup fs "image") || optTruthy (jLookup fs "sku") ||
     optTruthy (jLookup fs "mpn") || optTruthy (jLookup fs "gtin") ||
     optTruthy (jLookup fs "aggregateRating"))

/-- A node the product iterator yields: a dict with a product-like type or
the product shape. -/
def isCandidateNode : Json → Bool
  | .obj fs => isProductLikeType (jLookup fs "@type") || hasProductShape fs
  | _ => false

/- Python repr of a nested value inside str(): quotes around strings; the
strings exercised here carry no quote or backslash, so no escaping is
modelled. -/
mutual

def pyRepr : Json → String
  | .null => "None"
  | .bool true => "True"
  | .bool false => "False"
  | .num n => toString n
  | .str s => "'" ++ s ++ "'"
  | .arr xs => "[" ++ pyReprElems xs ++ "]"
  | .obj fs => "\x7b" ++ pyReprFields fs ++ "\x7d"

def pyReprElems : List Json → String
  | [] => ""
  | [x] => pyRepr x
  | x :: rest => pyRepr x ++ ", " ++ pyReprElems rest

def pyReprFields : List (String × Json) → String
  | [] => ""
  | [(k, v)] => "'" ++ k ++ "': " ++ pyRepr v
  | (k, v) :: rest => "'" ++ k ++ "': " ++ pyRepr v ++ ", " ++ pyReprFields rest

end

/-- Python str() of a parsed JSON value: a string is itself, anything else
is its repr. -/
def pyStr : Json → String
  | .str s => s
  | j => pyRepr j

/- The visit order of the stack-based walks of og.py on parsed JSON: the
popped node first, then the subtrees of its children from the last child to
the first, each child subtree contiguously. On tree-shaped parser output the
identity-based visited set of the source never fires (json.loads shares no
nodes), and the extra pushes of the list-container branch are always
shadowed by the later pop of the same list value, so this recursion is the
observable traversal. Only dict nodes are listed: they are the only nodes
the walks inspect. -/
mutual

def nodesOf : Json → List Json
  | .obj fs => Json.obj fs :: (nodesOfFields fs).reverse.flatten
  | .arr xs => (nodesOfElems xs).reverse.flatten
  | _ => []

def nodesOfFields : List (String × Json) → List (List Json)
  | [] => []
  | (_, v) :: rest => nodesOf v :: nodesOfFields rest

def nodesOfElems : List Json → List (List Json)
  | [] => []
  | x :: rest => nodesOf x :: nodesOfElems rest

end

/-- The product node iterator of og.py: every dict node of the traversal
that is product-like. -/
def productNodes (payload : Json) : List Json := (nodesOf payload).filter isCandidateNode

/-- The price, currency and availability accumulator of the offer walk. -/
structure OfferState where
  price : Option Rat
  currency : Option String
  availability : Option String
deriving DecidableEq

/-- Composition of clean text and the og.py price parser as the offer walk
applies them to the str() of a candidate value. -/
def extractPriceOpt : Option String → Option Rat
  | none => none
  | some s => extractPrice s

/-- The price key loop of the offer walk on one dict: the first key among
price, lowPrice, highPrice, priceSpecification and value whose value (or
nested price or value entry of a dict value, when truthy) parses to a price
wins; parse failures continue with the next key. -/
def offerPriceLoop : List String → List (String × Json) → Option Rat
  | [], _ => none
  | k :: ks, fs =>
    match getNN fs k with
    | none => offerPriceLoop ks fs
    | some (Json.obj g) =>
      match pyOrJ (jLookup g "price") (jLookup g "value") with
      | some nj =>
        if jTruthy nj then
          match extractPriceOpt (cleanTextS (pyStr nj)) with
          | some p => some p
          | none => offerPriceLoop ks fs
        else offerPriceLoop ks fs
      | none => offerPriceLoop ks fs
    | some other =>
      match extractPriceOpt (cleanTextS (pyStr other)) with
      | some p => some p
      | none => offerPriceLoop ks fs

/-- One dict step of the offer walk: fill each still-missing component. -/
def offerStep (st : OfferState) (j : Json) : OfferState :=
  match j with
  | .obj fs =>
    { price := match st.price with
        | some p => some p
        | none => offerPriceLoop ["price", "lowPrice", "highPrice",
            "priceSpecification", "value"] fs
      currency := match st.currency with
        | some c => some c
        | none => normalizeCurrencyJ (pyOrJ (jLookup fs "priceCurrency")
            (pyOrJ (jLookup fs "pricecurrency") (jLookup fs "currency")))
      availability := match st.availability with
        | some a => some a
        | none => normalizeAvailabilityJ (pyOrJ (jLookup fs "availability")
            (pyOrJ (jLookup fs "inStock") (jLookup fs "availabilityStatus"))) }
  | _ => st

/-- The offer detail walk of og.py over a value in its visit order. -/
def extractOfferDetails (value : Json) : OfferState :=
  (nodesOf value).foldl offerStep ⟨none, none, none⟩

/- Size measure for the recursions that descend through dictionary
lookups. -/
mutual

def jsize : Json → Nat
  | .arr xs => 1 + jsizeElems xs
  | .obj fs => 1 + jsizeFields fs
  | _ => 1

def jsizeElems : List Json → Nat
  | [] => 0
  | x :: rest => jsize x + jsizeElems rest

def jsizeFields : List (String × Json) → Nat
  | [] => 0
  | (_, v) :: rest => jsize v + jsizeFields rest

end

theorem jsize_pos (j : Json) : 0 < jsize j := by
  cases j <;> simp [jsize]

theorem jsize_lt_of_mem {xs : List Json} {x : Json} (h : x ∈ xs) :
    jsize x < jsize (Json.arr xs) := by
  have hle : jsize x ≤ jsizeElems xs := by
    induction xs with
    | nil => cases h
    | cons a rest ih =>
      rcases List.mem_cons.mp h with rfl | hm
      · simp only [jsizeElems]
        omega
      · have hr := ih hm
        simp only [jsizeElems]
        omega
  simp [jsize]
  omega

theorem jsize_lt_of_lookup {fs : List (String × Json)} {k : String} {v : Json}
    (h : jLookup fs k = some v) : jsize v < jsize (Json.obj fs) := by
  have hle : jsize v ≤ jsizeFields fs := by
    induction fs with
    | nil => simp [jLookup] at h
    | cons p rest ih =>
      obtain ⟨k', v'⟩ := p
      by_cases hk : k' = k
      · rw [jLookup, if_pos hk] at h
        cases h
        simp only [jsizeFields]
        omega
      · rw [jLookup, if_neg hk] at h
        have hr := ih h
        simp only [jsizeFields]
        omega
  simp [jsize]
  omega

/-- Fuel-bounded form of the first string helper of og.py: depth-first
through strings, arrays and the url, contentUrl, name and text entries of
objects, cleaning the first string found. Every recursive call descends one
level of the value, so any fuel at least its size is enough; the fuel form
keeps the definition kernel-computable. -/
def extractFirstStringF : Nat → Json → Option String
  | 0, _ => none
  | fuel + 1, j =>
    match j with
    | .str s => cleanTextS s
    | .arr xs => xs.findSome? (fun x => extractFirstStringF fuel x)
    | .obj fs => ["url", "contentUrl", "name", "text"].findSome?
        (fun k => (jLookup fs k).bind (fun v => extractFirstStringF fuel v))
    | _ => none

/-- The first string helper of og.py at its own size as fuel. -/
def extractFirstString (j : Json) : Option String := extractFirstStringF (jsize j) j

/- The brand helper of og.py: a string cleans, a dict takes its cleaned
name or brand entry, an array takes the first member yielding a brand. -/
mutual

def extractBrand : Json → Option String
  | .str s => cleanTextS s
  | .obj fs =>
    (match cleanTextJ (jLookup fs "name") with
     | some b => some b
     | none => cleanTextJ (jLookup fs "brand"))
  | .arr xs => extractBrandElems xs
  | _ => none

def extractBrandElems : List Json → Option String
  | [] => none
  | x :: rest =>
    match extractBrand x with
    | some b => some b
    | none => extractBrandElems rest

end

/-- One scored structured-data candidate as og.py builds it. -/
structure Candidate where
  title : Option String
  description : Option String
  brand : Option String
  price : Option Rat
  currency : Option String
  availability : Option String
  image_url : Option String
deriving DecidableEq

/-- The all-None candidate og.py returns when nothing scored. -/
def emptyCandidate : Candidate := ⟨none, none, none, none, none, none, none⟩

/-- Field extraction of og.py for one product node: name, description,
brand or manufacturer, image or thumbnailUrl, and the offer walk over
offers, aggregateOffer or the node itself. -/
def mkCandidate : Json → Candidate
  | .obj fs =>
    let brandSrc := pyOrJ (jLookup fs "brand") (jLookup fs "manufacturer")
    let imageSrc := pyOrJ (jLookup fs "image") (jLookup fs "thumbnailUrl")
    let offerSrc := match pyOrJ (jLookup fs "offers") (jLookup fs "aggregateOffer") with
      | some o => if jTruthy o then o else Json.obj fs
      | none => Json.obj fs
    let off := extractOfferDetails offerSrc
    { title := cleanTextJ (jLookup fs "name")
      description := cleanTextJ (jLookup fs "description")
      brand := match brandSrc with
        | some b => extractBrand b
        | none => none
      price := off.price
      currency := off.currency
      availability := off.availability
      image_url := match imageSrc with
        | some i => extractFirstString i
        | none => none }
  | _ => emptyCandidate

/-- The relevance score of og.py: title and price four points, image two,
description, brand, currency and availability one each, an explicit
product type two. -/
def candScore (j : Json) : Int :=
  (if (mkCandidate j).title.isSome then 4 else 0) +
  (if (mkCandidate j).price.isSome then 4 else 0) +
  (if (mkCandidate j).image_url.isSome then 2 else 0) +
  (if (mkCandidate j).description.isSome then 1 else 0) +
  (if (mkCandidate j).brand.isSome then 1 else 0) +
  (if (mkCandidate j).currency.isSome then 1 else 0) +
  (if (mkCandidate j).availability.isSome then 1 else 0) +
  (match j with
   | .obj fs => if isProductLikeType (jLookup fs "@type") then 2 else 0
   | _ => 0)

/-- Scored candidates of every parseable script payload, in the visit order
of the source. -/
def scoredCandidates (scripts : List (Option Json)) : List (Candidate × Int) :=
  (scripts.filterMap id).bind
    (fun p => (productNodes p).map (fun n => (mkCandidate n, candScore n)))

/-- The best-so-far fold of og.py over scored candidates: a strictly higher
score replaces the kept candidate, the initial score is minus one. -/
def bestFold (l : List (Candidate × Int)) : Option Candidate × Int :=
  l.foldl (fun acc p => if p.2 > acc.2 then (some p.1, p.2) else acc) (none, -1)

/-- The structured-data selection of og.py over the parsed script payloads
of a page: the kept candidate of the fold, or the all-None record. -/
def extractDetailsList (scripts : List (Option Json)) : Candidate :=
  match bestFold (scoredCandidates scripts) with
  | (some c, _) => c
  | (none, _) => emptyCandidate

/-- Highest score in a scored list, minus one when empty, written from the
words of the spec. -/
def maxScoreSpec (l : List (Candidate × Int)) : Int :=
  l.foldr (fun p m => max p.2 m) (-1)

/-- First candidate of the list whose score reaches the bound. -/
def firstAtLeast (m : Int) : List (Candidate × Int) → Option Candidate
  | [] => none
  | p :: rest => if m ≤ p.2 then some p.1 else firstAtLeast m rest

/-- Selection written from the words of the spec: the single candidate with
the highest relevance score, ties keeping the first found. -/
def specBest (l : List (Candidate × Int)) : Option Candidate :=
  firstAtLeast (maxScoreSpec l) l

/-- The bot-challenge phrases of og.py whose presence rejects a title. -/
def rejectTitleParts : List String :=
  ["почти готово", "загрузка", "just a moment", "loading", "attention required",
   "access denied", "captcha", "robot check", "проверка, что вы человек",
   "cloudflare", "enable javascript", "доступ ограничен", "проверка безопасности",
   "подозрительная активность", "подтвердите, что вы не робот",
   "antibot challenge", "challenge page"]

/-- The bare marketplace names of og.py that are not genuine titles. -/
def genericMarketplaceTitles : List String :=
  ["wildberries", "ozon", "lamoda", "яндекс маркет", "яндекс.маркет",
   "market.yandex", "интернет-магазин", "маркетплейс"]

/-- Python str.split with no separator, accumulator form: whitespace-run
separated words, empties dropped. -/
def wordsAux : List Char → List Char → List (List Char)
  | [], acc => if acc = [] then [] else [acc.reverse]
  | c :: rest, acc =>
    if pySpace c then
      (if acc = [] then wordsAux rest [] else acc.reverse :: wordsAux rest [])
    else wordsAux rest (c :: acc)

/-- Python str.split with no separator. -/
def wordsWs (l : List Char) : List (List Char) := wordsAux l []

/-- Whitespace-normalized lowercase form of a candidate title: the join by
single spaces of the words of the lowercased stripped title. -/
def normTitleL (s : String) : List Char :=
  List.intercalate [' '] (wordsWs (lowerL s.data))

/-- The title rejection filter of og.py: empty normalized text, a contained
bot-challenge phrase, length at most four, equality with a bare marketplace
name, or such a name followed by a space at the start, all reject. -/
def isRejectedTitle (title : String) : Bool :=
  if normTitleL title = [] then true
  else if rejectTitleParts.any (fun p => containsSub p.data (normTitleL title)) then true
  else if (normTitleL title).length ≤ 4 then true
  else if genericMarketplaceTitles.any (fun v => normTitleL title = v.data) then true
  else if genericMarketplaceTitles.any
    (fun v => (v.data ++ [' ']).isPrefixOf (normTitleL title)) then true
  else false

/-- A meta element of the parsed document: its property, name and itemprop
attributes and its content attribute, each possibly absent. -/
structure MetaTag where
  prop : Option String
  nameA : Option String
  itemprop : Option String
  content : Option String
deriving DecidableEq

/-- An element a CSS selector query returns: its stripped text and its
attributes. -/
structure CssElem where
  textStripped : String
  attrs : List (String × String)
deriving DecidableEq

/-- Attribute access on a selected element. -/
def CssElem.attr (e : CssElem) (k : String) : Option String :=
  (e.attrs.find? (fun p => p.1 == k)).map Prod.snd

/-- The parsed document as the pipeline queries it: the meta elements in
document order, the page title string, the first h1 string, the parse result
of each JSON-LD script (none covers empty and malformed scripts), and the
CSS selector query function of the external HTML library. -/
structure Soup where
  metas : List MetaTag
  pageTitle : Option String
  h1String : Option String
  h1Text : Option String
  scripts : List (Option Json)
  selectOne : String → Option CssElem

/-- First meta with the given property attribute, as soup.find returns it. -/
def findMetaProp (soup : Soup) (p : String) : Option MetaTag :=
  soup.metas.find? (fun m => m.prop == some p)

/-- First meta with the given name attribute. -/
def findMetaName (soup : Soup) (n : String) : Option MetaTag :=
  soup.metas.find? (fun m => m.nameA == some n)

/-- First meta with the given itemprop attribute. -/
def findMetaItem (soup : Soup) (i : String) : Option MetaTag :=
  soup.metas.find? (fun m => m.itemprop == some i)

/-- Python or on two find results: the first found element wins. -/
def orOpt {α : Type} (a b : Option α) : Option α :=
  match a with
  | some x => some x
  | none => b

/-- Python or on two optional strings with truthiness: an empty string falls
through like None. -/
def pyOrS (a b : Option String) : Option String :=
  match a with
  | some s => if s = "" then b else some s
  | none => b

/-- Clean text applied to an optional string. -/
def cleanTextOS : Option String → Option String
  | some s => cleanTextS s
  | none => none

/-- Currency normalizer applied to an optional string. -/
def normCurrencyOS : Option String → Option String
  | some s => normalizeCurrencyS s
  | none => none

/-- Availability normalizer applied to an optional string. -/
def normAvailOS : Option String → Option String
  | some s => normalizeAvailabilityS s
  | none => none

/-- Truthiness of an optional string. -/
def truthyOS : Option String → Bool
  | some s => s != ""
  | none => false

/-- The split of an http or https URL into its netloc and path, modelling
urllib.parse.urlparse on the absolute URL shapes the pipeline sees; without
a scheme the whole string is the path and there is no netloc. -/
def urlSplit (s : String) : Option (List Char) × List Char :=
  let l := s.data
  let afterScheme : Option (List Char) :=
    if httpSS.isPrefixOf l then some (l.drop 8)
    else if httpS.isPrefixOf l then some (l.drop 7)
    else none
  match afterScheme with
  | some r =>
    let netloc := r.takeWhile (fun c => c ≠ '/' && c ≠ '?' && c ≠ '#')
    let after := r.drop netloc.length
    (some netloc, after.takeWhile (fun c => c ≠ '?' && c ≠ '#'))
  | none => (none, l.takeWhile (fun c => c ≠ '?' && c ≠ '#'))

/-- The hostname of a parsed URL: the netloc after any userinfo, before any
port, lowercased; None without a netloc. -/
def urlHostname (s : String) : Option String :=
  match (urlSplit s).1 with
  | some netloc =>
    let hostPart := (lastSeg '@' netloc).takeWhile (fun c => c ≠ ':')
    if hostPart = [] then none else some ⟨lowerL hostPart⟩
  | none => none

/-- The path of a parsed URL. -/
def urlPath (s : String) : List Char := (urlSplit s).2

/-- The home-or-block-page test of og.py: an empty or root path, or a path
containing captcha or challenge. -/
def looksLikeHomeOrBlockPage (finalUrl : String) : Bool :=
  let path := pyStrip (lowerL (urlPath finalUrl))
  path = [] || path = ['/'] || containsSub "captcha".data path ||
    containsSub "challenge".data path

/-- The configuration consumed by the og.py pipeline. -/
structure OgSettings where
  parserBrowserFallback : Bool
  parserBrowserDomains : String

/-- Python str.split at commas, accumulator form. -/
def splitCommaAux : List Char → List Char → List String
  | [], acc => [⟨acc.reverse⟩]
  | c :: rest, acc =>
    if c = ',' then (⟨acc.reverse⟩ : String) :: splitCommaAux rest []
    else splitCommaAux rest (c :: acc)

/-- The configured browser fallback domains: split at commas, keep the
stripped lowercased nonempty entries. -/
def configuredBrowserDomains (st : OgSettings) : List String :=
  (splitCommaAux st.parserBrowserDomains.data []).filterMap (fun d =>
    if pyStrip d.data = [] then none else some (⟨lowerL (pyStrip d.data)⟩ : String))

/-- Python lstrip with a character set. -/
def pyLstripSet (chars : List Char) (l : List Char) : List Char :=
  l.dropWhile (fun c => chars.contains c)

/-- The browser fallback target test of og.py: the hostname, lstripped with
the character set of the literal www dot (which also removes leading host
letters in that set, as the source does), equal to a configured domain or
ending in a dot followed by one. -/
def isBrowserFallbackTarget (st : OgSettings) (url : String) : Bool :=
  let host0 := match urlHostname url with
    | some h => h.data
    | none => []
  let host := pyLstripSet ['w', '.'] host0
  if host = [] then false
  else (configuredBrowserDomains st).any
    (fun d => host = d.data || ('.' :: d.data).isSuffixOf host)

/-- The response record of the preview endpoint. -/
structure OgPreviewResponse where
  url : String
  title : Option String
  price : Option Rat
  image_url : Option String
  description : Option String
  brand : Option String
  currency : Option String
  availability : Option String
deriving DecidableEq

/-- The all-None record with a given url. -/
def nullResponse (u : String) : OgPreviewResponse :=
  ⟨u, none, none, none, none, none, none, none⟩

/-- Simplified model of urllib.parse.urljoin for http and https bases:
absolute references stand, scheme-relative and root-relative references
resolve against the base scheme and netloc, other references append to the
base directory. The claims never depend on its value. -/
def pyUrljoin (base rel : String) : String :=
  let r := rel.data
  let scheme : List Char := if httpSS.isPrefixOf base.data then httpSS else httpS
  if httpSS.isPrefixOf r || httpS.isPrefixOf r then rel
  else if ['/', '/'].isPrefixOf r then
    ⟨(if httpSS.isPrefixOf base.data then schemeHS else schemeH) ++ r⟩
  else
    match urlSplit base with
    | (some netloc, path) =>
      if ['/'].isPrefixOf r then ⟨scheme ++ netloc ++ r⟩
      else
        let dir := (path.reverse.dropWhile (fun c => c ≠ '/')).reverse
        ⟨scheme ++ netloc ++ (if dir = [] then ['/'] else dir) ++ r⟩
    | (none, _) => rel

/-- The rendered page as the browser helper of og.py queries it: the final
url, the parsed rendered content, the content attribute query per meta
selector, the raw page title (None when the query raised), and the text or
data-price query per price selector; a None result covers both absence and
a raised exception, which the source swallows. -/
structure PageOracle where
  finalUrl : String
  soup : Soup
  metaContent : String → Option String
  pageTitle : Option String
  priceSelText : String → Option String

/-- The meta content helper of the browser path: the stripped attribute
value, empty becoming None. -/
def metaC (pg : PageOracle) (sel : String) : Option String :=
  match pg.metaContent sel with
  | some v => cleanTextS v
  | none => none

/-- The marketplace price selectors the browser path tries in order. -/
def browserPriceSelectors : List String :=
  ["[data-auto=\"mainPrice\"]", "[data-auto=\"price\"]", "[itemprop='price']",
   ".ui-price__main", ".price", ".product-price", "[class*=\"price\"]",
   "[data-price]", ".price-block__price", ".product-card-price"]

/-- The browser price selector loop: the first selector whose query yields a
string with nonempty strip provides the price text. -/
def browserPriceSelLoop (pg : PageOracle) : List String → Option String
  | [] => none
  | sel :: rest =>
    match pg.priceSelText sel with
    | some v => if pyStrip v.data ≠ [] then some (⟨pyStrip v.data⟩ : String)
        else browserPriceSelLoop pg rest
    | none => browserPriceSelLoop pg rest

/-- The title the browser helper of og.py extracts: og and twitter metas,
then the page title, then structured data, under the rejection filter. -/
def browserTitleV (pg : PageOracle) : Option String :=
  let t1 := metaC pg "meta[property=\"og:title\"]"
  let t2 := if t1.isSome then t1 else metaC pg "meta[name=\"twitter:title\"]"
  let t3 := if t2.isSome then t2 else
    (match pg.pageTitle with
     | some pt => if pt = "" then none else some (⟨pyStrip pt.data⟩ : String)
     | none => none)
  let t4 := if truthyOS t3 then t3 else (extractDetailsList pg.soup.scripts).title
  match t4 with
  | some t => if isRejectedTitle t then none else some t
  | none => none

/-- The image the browser helper of og.py extracts: og and twitter metas,
then structured data, joined against the final url. -/
def browserImageV (pg : PageOracle) : Option String :=
  let i1 := metaC pg "meta[property=\"og:image\"]"
  let i2 := if i1.isSome then i1 else metaC pg "meta[name=\"twitter:image\"]"
  let i3 := if i2.isSome then i2 else (extractDetailsList pg.soup.scripts).image_url
  match i3 with
  | some i => some (pyUrljoin pg.finalUrl i)
  | none => none

/-- The price text the browser helper of og.py extracts: the product, og
and itemprop price metas, then the price selector loop. -/
def browserPText (pg : PageOracle) : Option String :=
  let p1 := metaC pg "meta[property=\"product:price:amount\"]"
  let p2 := if p1.isSome then p1 else metaC pg "meta[property=\"og:price:amount\"]"
  let p3 := if p2.isSome then p2 else metaC pg "meta[itemprop=\"price\"]"
  if p3.isSome then p3 else browserPriceSelLoop pg browserPriceSelectors

/-- The price the browser helper of og.py extracts: the parsed price text,
then the structured data price. -/
def browserPriceV (pg : PageOracle) : Option Rat :=
  if (extractPriceOpt (browserPText pg)).isSome then extractPriceOpt (browserPText pg)
  else (extractDetailsList pg.soup.scripts).price

/-- The description the browser helper of og.py extracts. -/
def browserDescriptionV (pg : PageOracle) : Option String :=
  let d1 := metaC pg "meta[property=\"og:description\"]"
  let d2 := if d1.isSome then d1 else metaC pg "meta[name=\"twitter:description\"]"
  if d2.isSome then d2 else cleanTextOS (extractDetailsList pg.soup.scripts).description

/-- The brand the browser helper of og.py extracts. -/
def browserBrandV (pg : PageOracle) : Option String :=
  cleanTextOS (extractDetailsList pg.soup.scripts).brand

/-- The currency the browser helper of og.py extracts. -/
def browserCurrencyV (pg : PageOracle) : Option String :=
  orOpt (normCurrencyOS (metaC pg "meta[property=\"product:price:currency\"]"))
    (orOpt (normCurrencyOS (metaC pg "meta[itemprop=\"priceCurrency\"]"))
      (normCurrencyOS (extractDetailsList pg.soup.scripts).currency))

/-- The availability the browser helper of og.py extracts. -/
def browserAvailabilityV (pg : PageOracle) : Option String :=
  orOpt (normAvailOS (metaC pg "meta[property=\"product:availability\"]"))
    (orOpt (normAvailOS (metaC pg "meta[property=\"og:availability\"]"))
      (normAvailOS (extractDetailsList pg.soup.scripts).availability))

/-- The extraction core of the browser helper of og.py after navigation:
meta tags, then page title, then structured data per field, the title
subject to the rejection filter; None when no field at all was populated. -/
def browserPreview (pg : PageOracle) : Option OgPreviewResponse :=
  if (browserTitleV pg).isNone && (browserPriceV pg).isNone && (browserImageV pg).isNone &&
      (browserDescriptionV pg).isNone && (browserBrandV pg).isNone then
    none
  else
    some ⟨pg.finalUrl, browserTitleV pg, browserPriceV pg, browserImageV pg,
      browserDescriptionV pg, browserBrandV pg, browserCurrencyV pg, browserAvailabilityV pg⟩

/-- The outcome of one static fetch attempt: the status code, the final url
after redirects, and the parse outcome of the body (the source wraps the
HTML parse in a try). -/
structure FetchResp where
  status : Nat
  finalUrl : String
  parse : Except String Soup

/-- The effect oracles of one preview call: the three fetch attempts in
their configured order and the browser helper outcome per url; a None page
covers an unavailable playwright, a failed launch and a failed navigation,
all swallowed by the source. -/
structure OgEnv where
  attempt1 : Except String FetchResp
  attempt2 : Except String FetchResp
  attempt3 : Except String FetchResp
  browserPage : String → Option PageOracle

/-- The browser helper of og.py as the pipeline calls it. -/
def browserCall (env : OgEnv) (u : String) : Option OgPreviewResponse :=
  match env.browserPage u with
  | some pg => browserPreview pg
  | none => none

/-- The fetch attempt loop: the first attempt that completes wins; all
failing yields nothing. -/
def firstFetch (env : OgEnv) : Option FetchResp :=
  match env.attempt1 with
  | .ok r => some r
  | .error _ =>
    match env.attempt2 with
    | .ok r => some r
    | .error _ =>
      match env.attempt3 with
      | .ok r => some r
      | .error _ => none

/-- The product signal test of og.py: an og:type containing product, a
product price meta, an itemprop price meta, or a structured-data title. -/
def hasProductSignals (soup : Soup) : Bool :=
  (match findMetaProp soup "og:type" with
   | some m =>
     match m.content with
     | some c => containsSub "product".data (lowerL c.data)
     | none => false
   | none => false) ||
  (findMetaProp soup "product:price:amount").isSome ||
  (findMetaItem soup "price").isSome ||
  (extractDetailsList soup.scripts).title.isSome

/-- The title selectors of the static path. -/
def titleSelectors : List String :=
  ["[itemprop=\"name\"]", ".product-title", ".product-name", "h1.product-title",
   "[class*=\"product-title\"]", "[class*=\"product-name\"]"]

/-- The title selector loop of the static path: the first selected element
whose stripped text is nonempty and not rejected provides the title. -/
def titleSelLoop (soup : Soup) : List String → Option String
  | [] => none
  | sel :: rest =>
    match soup.selectOne sel with
    | some el =>
      if el.textStripped ≠ "" ∧ ¬(isRejectedTitle el.textStripped = true) then
        some el.textStripped
      else titleSelLoop soup rest
    | none => titleSelLoop soup rest

/-- The static title extraction of og.py: meta tags, structured data, an h1
backed by product signals, the page title under its gate, the title
selectors, and finally the rejection filter. -/
def staticTitle (soup : Soup) (finalUrl : String) (st : OgSettings)
    (details : Candidate) : Option String :=
  let tm := orOpt (findMetaProp soup "og:title")
    (orOpt (findMetaName soup "twitter:title")
      (orOpt (findMetaName soup "title") (findMetaItem soup "name")))
  let t0 : Option String := match tm with
    | some m =>
      match m.content with
      | some c => cleanTextS c
      | none => none
    | none => none
  let t1 := if t0.isSome then t0 else details.title
  let t2 := if t1.isSome then t1 else
    (match soup.h1String with
     | some h =>
       if pyStrip h.data ≠ [] ∧ hasProductSignals soup = true then
         some (⟨pyStrip h.data⟩ : String)
       else none
     | none => none)
  let t3 := if t2.isSome then t2 else
    (match soup.pageTitle with
     | some pt =>
       if pyStrip pt.data ≠ [] ∧ (hasProductSignals soup = true ∨
           ¬(looksLikeHomeOrBlockPage finalUrl = true) ∨
           ¬(isBrowserFallbackTarget st finalUrl = true)) then
         some (⟨pyStrip pt.data⟩ : String)
       else none
     | none => none)
  let t4 := if t3.isSome then t3 else titleSelLoop soup titleSelectors
  match t4 with
  | some t => if isRejectedTitle t then none else some t
  | none => none

/-- The image selectors of the static path. -/
def imageSelectors : List String :=
  ["img[itemprop=\"image\"]", "img.product-image", "img[class*=\"product\"]",
   "img[class*=\"main\"]", ".product-image img", ".main-image img",
   "meta[property=\"og:image:secure_url\"]"]

/-- The image selector loop of the static path: meta selectors read the
content attribute, others the src, data-src or data-lazy-src attribute; the
first nonempty value is joined against the final url. -/
def imageSelLoop (soup : Soup) (finalUrl : String) : List String → Option String
  | [] => none
  | sel :: rest =>
    if "meta".data.isPrefixOf sel.data then
      match soup.selectOne sel with
      | some el =>
        match el.attr "content" with
        | some raw =>
          if pyStrip raw.data ≠ [] then
            some (pyUrljoin finalUrl (⟨pyStrip raw.data⟩ : String))
          else imageSelLoop soup finalUrl rest
        | none => imageSelLoop soup finalUrl rest
      | none => imageSelLoop soup finalUrl rest
    else
      match soup.selectOne sel with
      | some el =>
        match pyOrS (el.attr "src") (pyOrS (el.attr "data-src") (el.attr "data-lazy-src")) with
        | some raw =>
          if raw ≠ "" then some (pyUrljoin finalUrl raw)
          else imageSelLoop soup finalUrl rest
        | none => imageSelLoop soup finalUrl rest
      | none => imageSelLoop soup finalUrl rest

/-- The static image extraction of og.py: meta tags, structured data, then
the image selectors, each joined against the final url. -/
def staticImage (soup : Soup) (finalUrl : String) (details : Candidate) : Option String :=
  let im := orOpt (findMetaProp soup "og:image")
    (orOpt (findMetaName soup "twitter:image")
      (orOpt (findMetaItem soup "image") (findMetaName soup "image")))
  let i0 : Option String := match im with
    | some m =>
      match m.content with
      | some c =>
        if pyStrip c.data ≠ [] then some (pyUrljoin finalUrl (⟨pyStrip c.data⟩ : String))
        else none
      | none => none
    | none => none
  let i1 := if i0.isSome then i0 else
    (match details.image_url with
     | some raw => some (pyUrljoin finalUrl raw)
     | none => none)
  if i1.isSome then i1 else imageSelLoop soup finalUrl imageSelectors

/-- The price meta finders of the static path, in source order; the last one
requires a present content attribute, as the content regex of the source
does. -/
def priceMetaFinders : List (Soup → Option MetaTag) :=
  [fun s => findMetaProp s "product:price:amount",
   fun s => findMetaProp s "product:price",
   fun s => findMetaProp s "og:price:amount",
   fun s => findMetaName s "price",
   fun s => findMetaItem s "price",
   fun s => s.metas.find? (fun m => m.prop == some "product:price:currency" && m.content.isSome)]

/-- The price meta loop of the static path: the first meta with a content
attribute whose value parses to a price wins; parse failures continue. -/
def priceMetaLoop (soup : Soup) : List (Soup → Option MetaTag) → Option Rat
  | [] => none
  | f :: rest =>
    match f soup with
    | some m =>
      match m.content with
      | some c =>
        match extractPrice c with
        | some p => some p
        | none => priceMetaLoop soup rest
      | none => priceMetaLoop soup rest
    | none => priceMetaLoop soup rest

/-- The price selectors of the static path. -/
def priceSelectors : List String :=
  ["[data-price]", "[itemprop=\"price\"]", ".price", ".product-price",
   "[class*=\"price\"]", "[id*=\"price\"]"]

/-- The price selector loop of the static path: the data-price attribute,
the content attribute or the stripped text of the first selected element,
parsed; parse failures continue with the next selector. -/
def priceSelLoop (soup : Soup) : List String → Option Rat
  | [] => none
  | sel :: rest =>
    match soup.selectOne sel with
    | some el =>
      (match pyOrS (el.attr "data-price") (pyOrS (el.attr "content") (some el.textStripped)) with
       | some t =>
         if t ≠ "" then
           match extractPrice t with
           | some p => some p
           | none => priceSelLoop soup rest
         else priceSelLoop soup rest
       | none => priceSelLoop soup rest)
    | none => priceSelLoop soup rest

/-- The static price extraction of og.py: price metas, structured data, then
the price selectors. -/
def staticPrice (soup : Soup) (details : Candidate) : Option Rat :=
  match priceMetaLoop soup priceMetaFinders with
  | some p => some p
  | none =>
    match details.price with
    | some p => some p
    | none => priceSelLoop soup priceSelectors

/-- The static description extraction of og.py: structured data first, then
description metas. -/
def staticDescription (soup : Soup) (details : Candidate) : Option String :=
  match cleanTextOS details.description with
  | some d => some d
  | none =>
    match orOpt (findMetaProp soup "og:description")
      (orOpt (findMetaName soup "twitter:description") (findMetaName soup "description")) with
    | some m =>
      match m.content with
      | some c => cleanTextS c
      | none => none
    | none => none

/-- The static currency extraction of og.py: structured data first, then
currency metas. -/
def staticCurrency (soup : Soup) (details : Candidate) : Option String :=
  match normCurrencyOS details.currency with
  | some c => some c
  | none =>
    match orOpt (findMetaProp soup "product:price:currency") (findMetaItem soup "priceCurrency") with
    | some m =>
      match m.content with
      | some c => normalizeCurrencyS c
      | none => none
    | none => none

/-- The static availability extraction of og.py: structured data first, then
availability metas. -/
def staticAvailability (soup : Soup) (details : Candidate) : Option String :=
  match normAvailOS details.availability with
  | some a => some a
  | none =>
    match orOpt (findMetaProp soup "product:availability") (findMetaProp soup "og:availability") with
    | some m =>
      match m.content with
      | some c => normalizeAvailabilityS c
      | none => none
    | none => none

/-- A browser record returned as the response: its url falls back to the
given one when empty. -/
def brMapped (br : OgPreviewResponse) (fallbackUrl : String) : OgPreviewResponse :=
  { br with url := if br.url = "" then fallbackUrl else br.url }

/-- The final merge of og.py: browser fields take priority, static fields
fill the gaps, with Python or semantics except the price, which uses an
explicit is-None test. -/
def mergeBrowser (br : OgPreviewResponse) (response : OgPreviewResponse) : OgPreviewResponse :=
  { url := if br.url = "" then response.url else br.url
    title := pyOrS br.title response.title
    price := if br.price.isSome then br.price else response.price
    image_url := pyOrS br.image_url response.image_url
    description := pyOrS br.description response.description
    brand := pyOrS br.brand response.brand
    currency := pyOrS br.currency response.currency
    availability := pyOrS br.availability response.availability }

/-- A browser record considered useful by the pipeline gates: a truthy
title, a present price or a truthy image. -/
def brUseful (br : OgPreviewResponse) : Bool :=
  truthyOS br.title || br.price.isSome || truthyOS br.image_url

/-- The early browser-first step of og.py: for a configured browser target
the rendered preview is returned at once when useful. -/
def earlyBrowserR (st : OgSettings) (env : OgEnv) (targetUrl : String) :
    Option OgPreviewResponse :=
  if st.parserBrowserFallback && isBrowserFallbackTarget st targetUrl then
    match browserCall env targetUrl with
    | some br => if brUseful br then some (brMapped br targetUrl) else none
    | none => none
  else none

/-- The bot-challenge escalation step of og.py: on a 401, 403 or 429 status
with the fallback enabled, the rendered preview replaces the static parse
when the browser produced one. -/
def escalR (st : OgSettings) (env : OgEnv) (status : Nat) (finalUrl : String) :
    Option OgPreviewResponse :=
  if (status == 401 || status == 403 || status == 429) && st.parserBrowserFallback then
    match browserCall env finalUrl with
    | some br => some (brMapped br finalUrl)
    | none => none
  else none

/-- The browser rescue step of og.py: for a preferred browser target whose
static parse produced no title, price or image, a useful rendered preview
replaces it. -/
def rescueR (preferBrowser : Bool) (env : OgEnv) (finalUrl : String)
    (title : Option String) (price : Option Rat) (image : Option String) :
    Option OgPreviewResponse :=
  if preferBrowser && title.isNone && price.isNone && image.isNone then
    match browserCall env finalUrl with
    | some br => if brUseful br then some (brMapped br finalUrl) else none
    | none => none
  else none

/-- The record the static parse of og.py builds from the fetched page. -/
def staticResponse (st : OgSettings) (soup : Soup) (finalUrl : String) : OgPreviewResponse :=
  ⟨finalUrl,
    staticTitle soup finalUrl st (extractDetailsList soup.scripts),
    staticPrice soup (extractDetailsList soup.scripts),
    staticImage soup finalUrl (extractDetailsList soup.scripts),
    staticDescription soup (extractDetailsList soup.scripts),
    cleanTextOS (extractDetailsList soup.scripts).brand,
    staticCurrency soup (extractDetailsList soup.scripts),
    staticAvailability soup (extractDetailsList soup.scripts)⟩

/-- The final fallback gate of og.py: fallback enabled, the final url a
configured browser target, and the static record missing its title or both
its price and image. -/
def needsFallbackB (st : OgSettings) (finalUrl : String) (r : OgPreviewResponse) : Bool :=
  st.parserBrowserFallback && isBrowserFallbackTarget st finalUrl &&
    (r.title.isNone || (r.price.isNone && r.image_url.isNone))

/-- The preview implementation of og.py in the Except monad: the steps that
can raise are the oracles, every one of them handled as the source handles
its try blocks, so the result is always ok. -/
def previewUrlImplE (st : OgSettings) (env : OgEnv) (payloadUrl : String) :
    Except String OgPreviewResponse :=
  if normalizeUrl payloadUrl = "" then .ok (nullResponse payloadUrl)
  else
    match earlyBrowserR st env (normalizeUrl payloadUrl) with
    | some r => .ok r
    | none =>
      match firstFetch env with
      | none => .ok (nullResponse (normalizeUrl payloadUrl))
      | some resp =>
        match escalR st env resp.status resp.finalUrl with
        | some r => .ok r
        | none =>
          match resp.parse with
          | .error _ => .ok (nullResponse resp.finalUrl)
          | .ok soup =>
            match rescueR
                (st.parserBrowserFallback &&
                  isBrowserFallbackTarget st (normalizeUrl payloadUrl))
                env resp.finalUrl
                (staticResponse st soup resp.finalUrl).title
                (staticResponse st soup resp.finalUrl).price
                (staticResponse st soup resp.finalUrl).image_url with
            | some r => .ok r
            | none =>
              if needsFallbackB st resp.finalUrl (staticResponse st soup resp.finalUrl) then
                match browserCall env resp.finalUrl with
                | some br => .ok (mergeBrowser br (staticResponse st soup resp.finalUrl))
                | none => .ok (staticResponse st soup resp.finalUrl)
              else .ok (staticResponse st soup resp.finalUrl)

/-- The preview route handler of og.py: any escaped exception of the
implementation is caught and becomes the all-None record. -/
def previewUrl (st : OgSettings) (env : OgEnv) (payloadUrl : String) : OgPreviewResponse :=
  match previewUrlImplE st env payloadUrl with
  | .ok r => r
  | .error _ => nullResponse payloadUrl

/-- The tracking parameter names parse_cache.py strips, in source order. -/
def trackingParams : List String :=
  ["utm_source", "utm_medium", "utm_campaign", "utm_term", "utm_content",
   "at", "__rr", "_openstat", "from", "ref"]

/-- Fuel-bounded left-to-right non-overlapping removal of every occurrence
of a question mark or ampersand, the parameter name, an equals sign and the
following ampersand-free run, as one regex substitution does; the length of
the input is enough fuel since every step consumes at least one character. -/
def removeParamAux (p : List Char) : Nat → List Char → List Char
  | 0, l => l
  | _ + 1, [] => []
  | fuel + 1, c :: rest =>
    if (c = '?' || c = '&') && (p ++ ['=']).isPrefixOf rest then
      removeParamAux p fuel ((rest.drop (p.length + 1)).dropWhile (fun x => x ≠ '&'))
    else c :: removeParamAux p fuel rest

/-- One tracking-parameter removal pass of parse_cache.py. -/
def removeParam (p : String) (l : List Char) : List Char :=
  removeParamAux p.data l.length l

/-- The cleanup substitution deleting one trailing question mark or
ampersand. -/
def stripTrailQA (l : List Char) : List Char :=
  match l.reverse with
  | c :: rest => if c = '?' || c = '&' then rest.reverse else l
  | [] => l

/-- Fuel-bounded left-to-right non-overlapping replacement of a question
mark followed by an ampersand with a question mark. -/
def fixQAAux : Nat → List Char → List Char
  | 0, l => l
  | _ + 1, [] => []
  | fuel + 1, c :: rest =>
    if c = '?' && rest.head? = some '&' then '?' :: fixQAAux fuel rest.tail
    else c :: fixQAAux fuel rest

/-- The cleanup substitution replacing question mark ampersand with a
question mark. -/
def fixQA (l : List Char) : List Char := fixQAAux l.length l

/-- The URL normalizer of parse_cache.py: strip trailing slashes, remove the
tracking parameters in order, then the two cleanup substitutions. -/
def cacheNormalizeUrl (url : String) : String :=
  ⟨fixQA (stripTrailQA (trackingParams.foldl (fun acc p => removeParam p acc)
    (rstripSlash url.data)))⟩

/-- The cache key of parse_cache.py: the fixed prefix and the hex digest of
the normalized URL. The md5 of hashlib is an external library function and
is passed as a parameter: any function of the normalized URL yields equal
keys on equal normalizations, the actual digest included. -/
def getKey (md5hex : String → String) (url : String) : String :=
  "parse:" ++ md5hex (cacheNormalizeUrl url)

/-- A value of a cached product dictionary: the strings, floats and
integers the serialized records carry. -/
inductive PVal where
  | s (v : String)
  | r (v : Rat)
  | i (v : Int)
deriving DecidableEq

/-- Lookup in a cached dictionary. -/
def pLookup (d : List (String × PVal)) (k : String) : Option PVal :=
  (d.find? (fun e => e.1 == k)).map Prod.snd

/-- String projection of a stored value. -/
def asS : Option PVal → Option String
  | some (.s v) => some v
  | _ => none

/-- Float projection of a stored value. -/
def asR : Option PVal → Option Rat
  | some (.r v) => some v
  | _ => none

/-- Integer projection of a stored value. -/
def asI : Option PVal → Option Int
  | some (.i v) => some v
  | _ => none

/-- One dictionary entry as the None-dropping serialization emits it. -/
def entry (k : String) (o : Option PVal) : List (String × PVal) :=
  match o with
  | some v => [(k, v)]
  | none => []

/-- The product record of enhanced_parser.py, fields typed as the dataclass
annotations declare them. -/
structure ProductInfo where
  title : Option String
  price : Option Rat
  currency : Option String
  image_url : Option String
  description : Option String
  brand : Option String
  availability : Option String
  category : Option String
  rating : Option Rat
  reviews_count : Option Int
  seller : Option String
  delivery_info : Option String
deriving DecidableEq

/-- The freshly constructed all-None record. -/
def emptyProduct : ProductInfo :=
  ⟨none, none, none, none, none, none, none, none, none, none, none, none⟩

/-- Serialization of a record for caching: the non-None fields in
declaration order, as the dictionary comprehension over asdict emits. -/
def ProductInfo.toDict (p : ProductInfo) : List (String × PVal) :=
  entry "title" (p.title.map PVal.s) ++ entry "price" (p.price.map PVal.r) ++
  entry "currency" (p.currency.map PVal.s) ++ entry "image_url" (p.image_url.map PVal.s) ++
  entry "description" (p.description.map PVal.s) ++ entry "brand" (p.brand.map PVal.s) ++
  entry "availability" (p.availability.map PVal.s) ++ entry "category" (p.category.map PVal.s) ++
  entry "rating" (p.rating.map PVal.r) ++ entry "reviews_count" (p.reviews_count.map PVal.i) ++
  entry "seller" (p.seller.map PVal.s) ++ entry "delivery_info" (p.delivery_info.map PVal.s)

/-- Deserialization of a cached dictionary: keys starting with an
underscore and keys outside the twelve declared names are ignored (an
underscore key is not one of the twelve, so ignoring the twelve-name filter
captures both); absent keys become None. -/
def ProductInfo.fromDict (d : List (String × PVal)) : ProductInfo :=
  { title := asS (pLookup d "title"), price := asR (pLookup d "price"),
    currency := asS (pLookup d "currency"), image_url := asS (pLookup d "image_url"),
    description := asS (pLookup d "description"), brand := asS (pLookup d "brand"),
    availability := asS (pLookup d "availability"), category := asS (pLookup d "category"),
    rating := asR (pLookup d "rating"), reviews_count := asI (pLookup d "reviews_count"),
    seller := asS (pLookup d "seller"), delivery_info := asS (pLookup d "delivery_info") }

/-- The effect oracles of one cache operation of parse_cache.py: whether a
Redis client exists (connection failures leave None), the get round trip,
the parse of the stored payload (None for a loads failure, whose exception
the source catches), and the setex round trip. -/
structure CacheEnv where
  conn : Option Unit
  getRes : Except String (Option String)
  parse : String → Option (List (String × PVal))
  setRes : Except String Unit

/-- ParseCache.get: every failure path degrades to a miss. -/
def cacheGet (env : CacheEnv) : Option (List (String × PVal)) :=
  match env.conn with
  | none => none
  | some _ =>
    match env.getRes with
    | .error _ => none
    | .ok none => none
    | .ok (some data) =>
      match env.parse data with
      | none => none
      | some d => some d

/-- ParseCache.set: every failure path returns false instead of raising. -/
def cacheSet (env : CacheEnv) : Bool :=
  match env.conn with
  | none => false
  | some _ =>
    match env.setRes with
    | .error _ => false
    | .ok _ => true

/-- Python float() on a parsed JSON value, as the raw offer conversion of
enhanced_parser.py applies it: numbers convert, strings parse (raising on
failure), booleans convert, and every other type raises. -/
def pyFloatJson : Json → Except String Rat
  | .num n => .ok (n : Rat)
  | .str s =>
    match pyFloat s.data with
    | some v => .ok v
    | none => .error "ValueError"
  | .bool b => .ok (if b then 1 else 0)
  | _ => .error "TypeError"

/-- Key presence in a parsed object, the in operator on a dict. -/
def hasKey (fs : List (String × Json)) (k : String) : Bool := (jLookup fs k).isSome

/-- Truthiness of a stored dictionary value of the jsonld result. -/
def truthyOJ : Option Json → Bool
  | some j => jTruthy j
  | none => false

/-- Truthiness of an optional float. -/
def truthyOR : Option Rat → Bool
  | some v => v != 0
  | none => false

/-- The jsonld accumulation dictionary of enhanced_parser.py: a present key
holding the Python None is a present Json null. The price is always a
float when present. -/
structure EPResult where
  title : Option Json
  description : Option Json
  brand : Option Json
  price : Option Rat
  currency : Option Json
  image_url : Option Json

/-- The empty accumulation dictionary. -/
def emptyEP : EPResult := ⟨none, none, none, none, none, none⟩

/-- Truthiness of the accumulation dictionary: nonempty as a dict. -/
def epTruthy (r : EPResult) : Bool :=
  r.title.isSome || r.description.isSome || r.brand.isSome || r.price.isSome ||
  r.currency.isSome || r.image_url.isSome

/-- The product test of enhanced_parser.py: the type value contains the word
product, where list members go through str() first. -/
def isProductObject (fs : List (String × Json)) : Bool :=
  match jLookup fs "@type" with
  | some (.str s) => containsSub "product".data (lowerL s.data)
  | some (.arr xs) => xs.any (fun t => containsSub "product".data (lowerL (pyStr t).data))
  | _ => false

/-- The image step of the per-product mutation: a string stands, the first
member of a nonempty array stands, the url entry of a dict stands. -/
def epImage (fs : List (String × Json)) (r : EPResult) : EPResult :=
  if hasKey fs "image" && !truthyOJ r.image_url then
    match jLookup fs "image" with
    | some (.str s) => { r with image_url := some (.str s) }
    | some (.arr (x :: _)) => { r with image_url := some x }
    | some (.obj imf) =>
      if hasKey imf "url" then { r with image_url := jLookup imf "url" } else r
    | _ => r
  else r

/-- The per-product mutation of the jsonld walk of enhanced_parser.py: each
result key is written when present in the node and the stored value is
falsy; the offer price goes through the raw float conversion, which can
raise. -/
def epExtract (fs : List (String × Json)) (r : EPResult) : Except String EPResult :=
  let r1 := if hasKey fs "name" && !truthyOJ r.title then
    { r with title := jLookup fs "name" } else r
  let r2 := if hasKey fs "description" && !truthyOJ r1.description then
    { r1 with description := jLookup fs "description" } else r1
  let r3 := if hasKey fs "brand" && !truthyOJ r2.brand then
    { r2 with brand := match jLookup fs "brand" with
        | some (.obj bf) => some ((jLookup bf "name").getD Json.null)
        | some b => some b
        | none => some Json.null }
    else r2
  let offers := pyOrJ (jLookup fs "offers") (jLookup fs "aggregateOffer")
  match (if optTruthy offers && !truthyOR r3.price then offers else none) with
  | some (.obj ofs) =>
    (match (if hasKey ofs "price" then jLookup ofs "price" else none) with
     | some pv =>
       match pyFloatJson pv with
       | .error e => .error e
       | .ok p =>
         let r4 := { r3 with price := some p }
         let r5 := if hasKey ofs "priceCurrency" then
           { r4 with currency := jLookup ofs "priceCurrency" } else r4
         .ok (epImage fs r5)
     | none =>
       let r5 := if hasKey ofs "priceCurrency" then
         { r3 with currency := jLookup ofs "priceCurrency" } else r3
       .ok (epImage fs r5))
  | _ => .ok (epImage fs r3)

/- The recursive jsonld walk of enhanced_parser.py: product dicts mutate the
result, then every value and every list member is walked in order; a raised
float conversion propagates. -/
mutual

def epWalk : Json → EPResult → Except String EPResult
  | .obj fs, r =>
    (match (if isProductObject fs then epExtract fs r else .ok r) with
     | .error e => .error e
     | .ok r1 => epWalkFields fs r1)
  | .arr xs, r => epWalkElems xs r
  | _, r => .ok r

def epWalkFields : List (String × Json) → EPResult → Except String EPResult
  | [], r => .ok r
  | (_, v) :: rest, r =>
    match epWalk v r with
    | .error e => .error e
    | .ok r1 => epWalkFields rest r1

def epWalkElems : List Json → EPResult → Except String EPResult
  | [], r => .ok r
  | x :: rest, r =>
    match epWalk x r with
    | .error e => .error e
    | .ok r1 => epWalkElems rest r1

end

/-- The per-script loop of the jsonld extraction of enhanced_parser.py: a
parse failure is caught and skipped, a raised float conversion is not among
the caught classes and propagates. -/
def epScripts : List (Option Json) → EPResult → Except String EPResult
  | [], r => .ok r
  | none :: rest, r => epScripts rest r
  | some j :: rest, r =>
    match epWalk j r with
    | .error e => .error e
    | .ok r1 => epScripts rest r1

/-- The jsonld extraction of enhanced_parser.py over the parsed scripts of a
page. -/
def extractJsonldDataE (scripts : List (Option Json)) : Except String EPResult :=
  epScripts scripts emptyEP

/-- Typed string projection of a stored jsonld value, matching the
dataclass annotation of the receiving field; the modelled documents carry
strings in these positions. -/
def jstrOpt : Option Json → Option String
  | some (.str s) => some s
  | _ => none

/-- One marketplace entry of the selector table of enhanced_parser.py. -/
structure MarketplaceConfig where
  mname : String
  domains : List String
  titleSel : List String
  priceSel : List String
  imageSel : List String
  descriptionSel : List String
  brandSel : List String
  availabilitySel : List String

/-- The marketplace selector table of enhanced_parser.py, in source order. -/
def marketplaceConfigs : List MarketplaceConfig :=
  [{ mname := "Wildberries", domains := ["wildberries.ru", "wb.ru"],
     titleSel := ["[data-auto=\"product-title\"]", ".product-title",
       "h1[itemprop=\"name\"]", ".brand-and-product__title"],
     priceSel := ["[data-auto=\"mainPrice\"]", "[data-auto=\"price\"]",
       ".price-block__price", ".final-price"],
     imageSel := ["[data-auto=\"mainPhoto\"] img", ".product-gallery__img",
       ".swiper-slide img"],
     descriptionSel := [".product-description", "[data-auto=\"description\"]",
       ".collapsable-text"],
     brandSel := [".brand-and-product__brand", "[data-auto=\"brand\"]", ".brand-name"],
     availabilitySel := ["[data-auto=\"available\"]", ".product-availability", ".stock-info"] },
   { mname := "Ozon", domains := ["ozon.ru"],
     titleSel := [".tsTitle450", "h1.tsHeadline550", ".product-title"],
     priceSel := [".ui-price__main", ".price-block__price", ".ui-a2"],
     imageSel := [".image-gallery__img", ".js-gallery-image", ".product-image"],
     descriptionSel := [".product-description-text", ".collapse-content", ".description-text"],
     brandSel := [".brand-name", ".product-brand", ".tsCaption500"],
     availabilitySel := [".availability-info", ".stock-status", ".product-available"] },
   { mname := "Lamoda", domains := ["lamoda.ru"],
     titleSel := [".product-title__brand-name", "h1.product-title__model-name", ".product-title"],
     priceSel := [".product-prices__price", ".price-block__price", ".product-price"],
     imageSel := [".product-gallery__img", ".product-image__img", ".gallery__img"],
     descriptionSel := [".product-description", ".product-details", ".description-text"],
     brandSel := [".product-title__brand-name", ".brand-name"],
     availabilitySel := [".product-availability", ".stock-info", ".availability-status"] },
   { mname := "DNS", domains := ["dns-shop.ru"],
     titleSel := ["h1.product-card-top__title", "h1[data-qa='product-name']", "h1",
       ".product-card-top__title"],
     priceSel := [".product-buy__price", ".product-buy__price-number",
       "[data-qa='product-price']", ".product-card-top__price"],
     imageSel := [".product-images__main-img img", ".product-images__main-image img",
       ".product-card-top__img img", ".product-images__preview img"],
     descriptionSel := [".product-card-description__text", "[data-qa='product-description']",
       ".product-card-description", ".product-card-top__description"],
     brandSel := [".product-card-top__brand", "[data-qa='product-brand']", ".product-card__brand"],
     availabilitySel := [".available-amount", "[data-qa='product-availability']",
       ".product-buy__availability"] },
   { mname := "Yandex Market", domains := ["market.yandex.ru", "yandex.ru"],
     titleSel := ["h1._2B2oh", ".offer-title", ".product-title"],
     priceSel := ["._3f2ZU", ".price", ".offer-price"],
     imageSel := [".n-gallery__img", ".product-image", ".gallery-image"],
     descriptionSel := [".offer-description", ".product-description", ".description-text"],
     brandSel := [".offer-brand", ".brand-name"],
     availabilitySel := [".offer-availability", ".stock-info"] },
   { mname := "Amazon", domains := ["amazon.com", "amazon.ru"],
     titleSel := ["#productTitle", ".product-title", "h1#title"],
     priceSel := [".a-price-whole", ".a-price .a-offscreen", ".priceBlockBuyingPriceString"],
     imageSel := ["#landingImage", ".a-dynamic-image", ".product-image"],
     descriptionSel := ["#feature-bullets ul", ".product-description",
       ".a-section.a-spacing-small"],
     brandSel := ["#bylineInfo", ".po-brand", ".brand-name"],
     availabilitySel := ["#availability", ".a-color-success", ".availability"] },
   { mname := "AliExpress", domains := ["aliexpress.com", "aliexpress.ru"],
     titleSel := [".product-title-text", "h1.product-title", ".title-text"],
     priceSel := [".product-price-current", ".uniform-banner-box-price", ".price-current"],
     imageSel := [".image-viewer img", ".product-gallery img",
       ".ui-image-viewer-thumb-frame img"],
     descriptionSel := [".product-description", ".description-content", ".ui-box-body"],
     brandSel := [".product-brand", ".brand-name"],
     availabilitySel := [".product-delivery", ".availability-info", ".stock-info"] }]

/-- Fuel-bounded left-to-right removal of every occurrence of a substring,
Python str.replace with the empty replacement. -/
def removeSubAux (pat : List Char) : Nat → List Char → List Char
  | 0, l => l
  | _ + 1, [] => []
  | fuel + 1, c :: rest =>
    if pat.isPrefixOf (c :: rest) then
      removeSubAux pat fuel ((c :: rest).drop pat.length)
    else c :: removeSubAux pat fuel rest

/-- Python str.replace of a nonempty pattern with the empty string. -/
def removeSub (pat : String) (l : List Char) : List Char := removeSubAux pat.data l.length l

/-- The marketplace lookup of enhanced_parser.py: the hostname with every
www dot occurrence replaced away, matched by equality or dot-suffix against
each configured domain in order. -/
def getMarketplaceConfig (url : String) : Option MarketplaceConfig :=
  let hostname := match urlHostname url with
    | some h => h.data
    | none => []
  let host := removeSub "www." hostname
  marketplaceConfigs.find?
    (fun cfg => cfg.domains.any (fun d => host = d.data || ('.' :: d.data).isSuffixOf host))

/-- The text content helper of enhanced_parser.py: the stripped content,
data-price or data-value attribute, else the stripped element text, empty
values falling through. -/
def extractTextContent (el : CssElem) : Option String :=
  let fromAttr : String → Option String := fun a =>
    match el.attr a with
    | some v => if pyStrip v.data = [] then none else some (⟨pyStrip v.data⟩ : String)
    | none => none
  match fromAttr "content" with
  | some t => some t
  | none =>
    match fromAttr "data-price" with
    | some t => some t
    | none =>
      match fromAttr "data-value" with
      | some t => some t
      | none => if el.textStripped = "" then none else some el.textStripped

/-- The image url helper of enhanced_parser.py: the first nonempty src,
data-src, data-lazy-src or content attribute joined against the base. -/
def extractImageUrl (el : CssElem) (baseUrl : String) : Option String :=
  let fromAttr : String → Option String := fun a =>
    match el.attr a with
    | some v => if pyStrip v.data = [] then none else
        some (pyUrljoin baseUrl (⟨pyStrip v.data⟩ : String))
    | none => none
  match fromAttr "src" with
  | some t => some t
  | none =>
    match fromAttr "data-src" with
    | some t => some t
    | none =>
      match fromAttr "data-lazy-src" with
      | some t => some t
      | none => fromAttr "content"

/-- A text field selector loop of the marketplace parse: the first selected
element with usable text wins. -/
def selLoopText (soup : Soup) : List String → Option String
  | [] => none
  | sel :: rest =>
    match soup.selectOne sel with
    | some el =>
      match extractTextContent el with
      | some t => some t
      | none => selLoopText soup rest
    | none => selLoopText soup rest

/-- The price selector loop of the marketplace parse: the first selected
element whose text parses with the enhanced price parser wins. -/
def selLoopPrice (soup : Soup) : List String → Option Rat
  | [] => none
  | sel :: rest =>
    match soup.selectOne sel with
    | some el =>
      match extractTextContent el with
      | some t =>
        (match enhancedExtractPrice t with
         | some p => some p
         | none => selLoopPrice soup rest)
      | none => selLoopPrice soup rest
    | none => selLoopPrice soup rest

/-- The image selector loop of the marketplace parse. -/
def selLoopImage (soup : Soup) (baseUrl : String) : List String → Option String
  | [] => none
  | sel :: rest =>
    match soup.selectOne sel with
    | some el =>
      match extractImageUrl el baseUrl with
      | some t => some t
      | none => selLoopImage soup baseUrl rest
    | none => selLoopImage soup baseUrl rest

/-- The marketplace selector parse of enhanced_parser.py: each field from
its configured selector list, availability lowercased. -/
def parseWithSelectors (soup : Soup) (cfg : MarketplaceConfig) (baseUrl : String) : ProductInfo :=
  { emptyProduct with
    title := selLoopText soup cfg.titleSel
    price := selLoopPrice soup cfg.priceSel
    image_url := selLoopImage soup baseUrl cfg.imageSel
    description := selLoopText soup cfg.descriptionSel
    brand := selLoopText soup cfg.brandSel
    availability := (selLoopText soup cfg.availabilitySel).map
      (fun t => (⟨lowerL t.data⟩ : String)) }

/-- The generic meta tag parse of enhanced_parser.py, mutating the record in
source order: the open graph tags overwrite unconditionally, the twitter,
h1, itemprop and description fallbacks only fill falsy fields. -/
def parseMetaTags (soup : Soup) (p0 : ProductInfo) (baseUrl : String) : ProductInfo :=
  let contentOf : Option MetaTag → Option String := fun m =>
    match m with
    | some mt =>
      match mt.content with
      | some c => if c = "" then none else some c
      | none => none
    | none => none
  let p1 := match contentOf (findMetaProp soup "og:title") with
    | some c => { p0 with title := some (⟨pyStrip c.data⟩ : String) }
    | none => p0
  let p2 := match contentOf (findMetaProp soup "og:price:amount") with
    | some c =>
      (match enhancedExtractPrice c with
       | some pr => { p1 with price := some pr }
       | none => p1)
    | none => p1
  let p3 := match contentOf (findMetaProp soup "og:image") with
    | some c => { p2 with image_url := some (pyUrljoin baseUrl (⟨pyStrip c.data⟩ : String)) }
    | none => p2
  let p4 := match contentOf (findMetaProp soup "og:description") with
    | some c => { p3 with description := some (⟨pyStrip c.data⟩ : String) }
    | none => p3
  let p5 := match contentOf (findMetaName soup "twitter:title") with
    | some c => if !truthyOS p4.title then
        { p4 with title := some (⟨pyStrip c.data⟩ : String) } else p4
    | none => p4
  let p6 := match contentOf (findMetaName soup "twitter:image") with
    | some c => if !truthyOS p5.image_url then
        { p5 with image_url := some (pyUrljoin baseUrl (⟨pyStrip c.data⟩ : String)) } else p5
    | none => p5
  let p7 := match soup.h1Text with
    | some h => if h ≠ "" && !truthyOS p6.title then { p6 with title := some h } else p6
    | none => p6
  let p8 := match contentOf (findMetaItem soup "price") with
    | some c =>
      if !truthyOR p7.price then
        match enhancedExtractPrice c with
        | some pr => { p7 with price := some pr }
        | none => p7
      else p7
    | none => p7
  let p9 := match contentOf (findMetaItem soup "image") with
    | some c => if !truthyOS p8.image_url then
        { p8 with image_url := some (pyUrljoin baseUrl (⟨pyStrip c.data⟩ : String)) } else p8
    | none => p8
  match contentOf (findMetaName soup "description") with
  | some c => if !truthyOS p9.description then
      { p9 with description := some (⟨pyStrip c.data⟩ : String) } else p9
  | none => p9

/-- The outcome of the single HTTP fetch of parse_product. -/
structure EPFetch where
  status : Nat
  soup : Soup

/-- The effect oracles of one parse_product call: the cache read result
(its failures already absorbed to None by ParseCache.get), the fetch
outcome, and the playwright helper outcome (None covers a disabled helper
and every swallowed internal failure). -/
structure EPEnv where
  cached : Option (List (String × PVal))
  fetch : Except String EPFetch
  playwright : Option ProductInfo

/-- The field merge used by parse_product when combining a higher priority
record into the accumulated one: Python or semantics per field, the price
with float truthiness. -/
def epMerge (hi lo : ProductInfo) : ProductInfo :=
  { lo with
    title := pyOrS hi.title lo.title
    price := if truthyOR hi.price then hi.price else lo.price
    image_url := pyOrS hi.image_url lo.image_url
    description := pyOrS hi.description lo.description
    brand := pyOrS hi.brand lo.brand
    availability := pyOrS hi.availability lo.availability }

/-- parse_product of enhanced_parser.py: returns the record and the list of
dictionaries written to the cache, in order. A money path: the 401 or 403
escalation and the fetch failure path both cache whatever the playwright
helper returned, without any usefulness gate; the ordinary path gates the
write on a truthy title, price or image. -/
def parseProduct (useCache usePlaywright : Bool) (env : EPEnv) (url0 : String) :
    ProductInfo × List (List (String × PVal)) :=
  let url := normalizeUrl url0
  if url = "" then (emptyProduct, [])
  else
    let cachedHit : Option ProductInfo :=
      if useCache then
        match env.cached with
        | some d => if d ≠ [] then some (ProductInfo.fromDict d) else none
        | none => none
      else none
    match cachedHit with
    | some p => (p, [])
    | none =>
      let cfg := getMarketplaceConfig url
      match env.fetch with
      | .error _ =>
        (match (if usePlaywright then env.playwright else none) with
         | some pw => (pw, if useCache then [pw.toDict] else [])
         | none => (emptyProduct, []))
      | .ok resp =>
        if (resp.status == 401 || resp.status == 403) && usePlaywright &&
            env.playwright.isSome then
          (match env.playwright with
           | some pw => (pw, if useCache then [pw.toDict] else [])
           | none => (emptyProduct, []))
        else if resp.status ≥ 400 then
          (match (if usePlaywright then env.playwright else none) with
           | some pw => (pw, if useCache then [pw.toDict] else [])
           | none => (emptyProduct, []))
        else
          match extractJsonldDataE resp.soup.scripts with
          | .error _ => (emptyProduct, [])
          | .ok jd =>
            let product0 : ProductInfo :=
              if epTruthy jd then
                { emptyProduct with
                  title := jstrOpt jd.title, price := jd.price,
                  currency := jstrOpt jd.currency, image_url := jstrOpt jd.image_url,
                  description := jstrOpt jd.description, brand := jstrOpt jd.brand }
              else emptyProduct
            let product1 :=
              match cfg with
              | some c => epMerge (parseWithSelectors resp.soup c url) product0
              | none => parseMetaTags resp.soup product0 url
            let product2 :=
              if (!truthyOS product1.title ||
                  (!truthyOR product1.price && !truthyOS product1.image_url)) && usePlaywright then
                match env.playwright with
                | some pw => epMerge pw product1
                | none => product1
              else product1
            let writes :=
              if useCache && (truthyOS product2.title || truthyOR product2.price ||
                  truthyOS product2.image_url) then [product2.toDict] else []
            (product2, writes)

/-- A page whose only title signal is a bot-challenge phrase in its og
title meta, no other content. -/
def jamSoup : Soup :=
  { metas := [⟨some "og:title", none, none, some "Just a moment..."⟩],
    pageTitle := none, h1String := none, h1Text := none, scripts := [],
    selectOne := fun _ => none }

/-- Settings with the browser fallback disabled. -/
def ogOffSettings : OgSettings := ⟨false, ""⟩

/-- A successful static fetch of the jam page, no browser available. -/
def jamEnv : OgEnv :=
  ⟨Except.ok ⟨200, "https://blocked.example/p", .ok jamSoup⟩,
    Except.error "unused", Except.error "unused", fun _ => none⟩

/-- The static page of the end-to-end scenario: an og title meta with the
word Lamp and an og price meta with amount 1999, nothing else. -/
def lampSoup : Soup :=
  { metas := [⟨some "og:title", none, none, some "Lamp"⟩,
              ⟨some "og:price:amount", none, none, some "1999"⟩],
    pageTitle := none, h1String := none, h1Text := none, scripts := [],
    selectOne := fun _ => none }

/-- A successful static fetch of the lamp page, no browser available. -/
def lampEnv : OgEnv :=
  ⟨Except.ok ⟨200, "https://shop.example/lamp", .ok lampSoup⟩,
    Except.error "unused", Except.error "unused", fun _ => none⟩

/-- A parsed document with no content at all. -/
def emptySoup : Soup :=
  ⟨[], none, none, none, [], fun _ => none⟩

/-- Effect oracles of a parse_product call whose fetch returns status 403
and whose playwright helper returns a record with every field None. -/
def blockedEnv : EPEnv :=
  ⟨none, .ok ⟨403, emptySoup⟩, some emptyProduct⟩

/-- A page whose single JSON-LD script carries a product node with a
negative price literal inside its offers dict. -/
def negPriceSoup : Soup :=
  { metas := [], pageTitle := none, h1String := none, h1Text := none,
    scripts := [some (Json.obj [("@type", Json.str "Product"),
      ("name", Json.str "Thing"),
      ("offers", Json.obj [("price", Json.num (-5))])])],
    selectOne := fun _ => none }

/-- Effect oracles of a parse_product call that fetches the negative price
page successfully, cache and playwright unused. -/
def negPriceEnv : EPEnv :=
  ⟨none, .ok ⟨200, negPriceSoup⟩, none⟩

theorem isPrefixOf_append {p l : List Char} (h : p.isPrefixOf l = true) :
    p ++ l.drop p.length = l := by
  induction p generalizing l with
  | nil => simp
  | cons a as ih =>
    cases l with
    | nil => simp [List.isPrefixOf] at h
    | cons b bs =>
      simp only [List.isPrefixOf, Bool.and_eq_true, beq_iff_eq] at h
      simp [h.1, ih h.2]

theorem schemeTok_cases {l t r : List Char} (h : schemeTok l = some (t, r)) :
    (httpSS.isPrefixOf l = true ∧ t = httpSS ∧ r = l.drop 8) ∨
    (httpS.isPrefixOf l = true ∧ t = httpS ∧ r = l.drop 7) := by
  unfold schemeTok at h
  split at h
  · rename_i hp
    simp only [Option.some.injEq, Prod.mk.injEq] at h
    exact Or.inl ⟨hp, h.1.symm, h.2.symm⟩
  · split at h
    · rename_i hp
      simp only [Option.some.injEq, Prod.mk.injEq] at h
      exact Or.inr ⟨hp, h.1.symm, h.2.symm⟩
    · cases h

theorem dropToksF_subset : ∀ (fuel : Nat) (l : List Char), dropToksF fuel l ⊆ l := by
  intro fuel
  induction fuel with
  | zero => intro l; rw [dropToksF]; exact fun x hx => hx
  | succ n ih =>
    intro l
    rw [dropToksF]
    cases h : schemeTok l with
    | none => exact fun x hx => hx
    | some p =>
      obtain ⟨t, r⟩ := p
      rcases schemeTok_cases h with ⟨_, _, hr⟩ | ⟨_, _, hr⟩ <;>
        exact fun x hx => (hr ▸ List.drop_subset _ _) (ih r hx)

theorem dropToks_subset {l : List Char} : dropToks l ⊆ l := dropToksF_subset _ _

theorem dropToksF_none : ∀ (fuel : Nat) (l : List Char), l.length ≤ fuel →
    schemeTok (dropToksF fuel l) = none := by
  intro fuel
  induction fuel with
  | zero =>
    intro l hl
    have : l = [] := List.length_eq_zero.mp (Nat.le_zero.mp hl)
    subst this
    rfl
  | succ n ih =>
    intro l hl
    rw [dropToksF]
    cases h : schemeTok l with
    | none => exact h
    | some p =>
      obtain ⟨t, r⟩ := p
      have hlen : r.length + 7 ≤ l.length := by
        rcases schemeTok_cases h with ⟨hp, _, hr⟩ | ⟨hp, _, hr⟩
        · have := isPrefixOf_length_le hp
          simp [httpSS] at this
          subst hr
          simp [List.length_drop]
          omega
        · have := isPrefixOf_length_le hp
          simp [httpS] at this
          subst hr
          simp [List.length_drop]
          omega
      exact ih r (by omega)

theorem dropToks_none {l : List Char} : schemeTok (dropToks l) = none :=
  dropToksF_none _ _ (le_refl _)

theorem schemeTok_some_eq {l t r : List Char} (h : schemeTok l = some (t, r)) :
    t ++ r = l := by
  simp only [schemeTok] at h
  split at h
  · rename_i hp
    simp only [Option.some.injEq, Prod.mk.injEq] at h
    rw [← h.1, ← h.2]
    have := isPrefixOf_append hp
    simpa [httpSS] using this
  · split at h
    · rename_i hp
      simp only [Option.some.injEq, Prod.mk.injEq] at h
      rw [← h.1, ← h.2]
      have := isPrefixOf_append hp
      simpa [httpS] using this
    · simp at h

theorem collapseSchemes_subset {l : List Char} : collapseSchemes l ⊆ l := by
  intro c hc
  unfold collapseSchemes at hc
  cases h : schemeTok l with
  | none => rw [h] at hc; exact hc
  | some p =>
    obtain ⟨t, r⟩ := p
    rw [h] at hc
    rw [← schemeTok_some_eq h]
    rcases List.mem_append.mp hc with h1 | h1
    · exact List.mem_append.mpr (Or.inl h1)
    · exact List.mem_append.mpr (Or.inr (dropToks_subset h1))

theorem dropToks_of_none {l : List Char} (h : schemeTok l = none) : dropToks l = l := by
  show dropToksF l.length l = l
  cases hl : l.length with
  | zero => rfl
  | succ n => rw [dropToksF, h]

theorem schemeTok_SS (x : List Char) : schemeTok (httpSS ++ x) = some (httpSS, x) := by
  simp [schemeTok, httpSS, httpS, List.isPrefixOf]

theorem schemeTok_S (x : List Char) : schemeTok (httpS ++ x) = some (httpS, x) := by
  simp [schemeTok, httpSS, httpS, List.isPrefixOf]

theorem repairScheme_shape (v : List Char) :
    ∃ t x, (t = httpS ∨ t = httpSS) ∧ repairScheme v = t ++ x := by
  unfold repairScheme
  split
  · exact ⟨httpSS, _, Or.inr rfl, rfl⟩
  · split
    · exact ⟨httpS, _, Or.inl rfl, rfl⟩
    · split
      · rename_i hpre
        obtain ⟨w, hw⟩ : ∃ w, v = '/' :: '/' :: w := by
          have h2 := isPrefixOf_append hpre
          exact ⟨v.drop 2, by simpa using h2.symm⟩
        subst hw
        exact ⟨httpSS, w, Or.inr rfl, by simp [schemeHS, httpSS]⟩
      · split
        · exact ⟨httpSS, _, Or.inr rfl, rfl⟩
        · rename_i c1 c2 c3 c4
          simp only [Bool.not_eq_true', Bool.or_eq_false_iff] at c4
          rcases hor : httpSS.isPrefixOf v with hff | htt
          · have hH : httpS.isPrefixOf v = true := by
              rcases hhh : httpS.isPrefixOf v with h0 | h1
              · exact absurd (by simp [hhh, hor]) c4
              · rfl
            exact ⟨httpS, v.drop 7, Or.inl rfl, by simpa [httpS] using (isPrefixOf_append hH).symm⟩
          · exact ⟨httpSS, v.drop 8, Or.inr rfl,
              by simpa [httpSS] using (isPrefixOf_append hor).symm⟩

theorem repairScheme_subset (v : List Char) :
    ∀ c ∈ repairScheme v, c ∈ v ∨ c ∈ httpSS ∨ c ∈ httpS := by
  intro c hc
  unfold repairScheme at hc
  split at hc
  · rcases List.mem_append.mp hc with h1 | h1
    · exact Or.inr (Or.inl h1)
    · exact Or.inl (List.drop_subset _ _ (List.dropWhile_subset _ h1))
  · split at hc
    · rcases List.mem_append.mp hc with h1 | h1
      · exact Or.inr (Or.inr h1)
      · exact Or.inl (List.drop_subset _ _ (List.dropWhile_subset _ h1))
    · split at hc
      · rcases List.mem_append.mp hc with h1 | h1
        · refine Or.inr (Or.inl ?_)
          fin_cases h1 <;> simp [httpSS]
        · exact Or.inl h1
      · split at hc
        · rcases List.mem_append.mp hc with h1 | h1
          · exact Or.inr (Or.inl h1)
          · exact Or.inl h1
        · exact Or.inl hc

theorem normalizeL_noSpace {raw : List Char} : ∀ c ∈ normalizeL raw, !pySpace c := by
  intro c hc
  unfold normalizeL at hc
  split at hc
  · simp at hc
  · have hc' := collapseSchemes_subset hc
    rcases repairScheme_subset _ _ hc' with h1 | h1 | h1
    · exact (List.mem_filter.mp h1).2
    · fin_cases h1 <;> decide
    · fin_cases h1 <;> decide

theorem normalizeL_shape {raw : List Char} (h : stripAllWs raw ≠ []) :
    ∃ t r, (t = httpS ∨ t = httpSS) ∧ normalizeL raw = t ++ r ∧ schemeTok r = none := by
  obtain ⟨t, x, ht, hrep⟩ := repairScheme_shape (stripAllWs raw)
  refine ⟨t, dropToks x, ht, ?_, dropToks_none⟩
  unfold normalizeL
  rw [if_neg h, hrep]
  unfold collapseSchemes
  rcases ht with rfl | rfl
  · rw [schemeTok_S]
  · rw [schemeTok_SS]

theorem normalizeL_idem (raw : List Char) : normalizeL (normalizeL raw) = normalizeL raw := by
  by_cases hv : stripAllWs raw = []
  · have h0 : normalizeL raw = [] := by unfold normalizeL; rw [if_pos hv]
    rw [h0]
    unfold normalizeL
    simp [stripAllWs]
  · obtain ⟨t, r, ht, ho, hr⟩ := normalizeL_shape hv
    rw [ho]
    have hns : stripAllWs (t ++ r) = t ++ r := by
      apply List.filter_eq_self.mpr
      intro c hc
      exact @normalizeL_noSpace raw c (ho ▸ hc)
    have hne : t ++ r ≠ [] := by
      rcases ht with rfl | rfl <;> simp [httpS, httpSS]
    unfold normalizeL
    rw [hns, if_neg hne]
    rcases ht with rfl | rfl
    · have hrep : repairScheme (httpS ++ r) = httpS ++ r := by
        simp [repairScheme, schemeH, schemeHS, httpS, httpSS, List.isPrefixOf]
      rw [hrep]
      have hcol : collapseSchemes (httpS ++ r) = httpS ++ dropToks r := by
        unfold collapseSchemes
        rw [schemeTok_S]
      rw [hcol, dropToks_of_none hr]
    · have hrep : repairScheme (httpSS ++ r) = httpSS ++ r := by
        simp [repairScheme, schemeH, schemeHS, httpS, httpSS, List.isPrefixOf]
      rw [hrep]
      have hcol : collapseSchemes (httpSS ++ r) = httpSS ++ dropToks r := by
        unfold collapseSchemes
        rw [schemeTok_SS]
      rw [hcol, dropToks_of_none hr]

/-- C6: URL normalization is idempotent, and returns the empty string, not
an exception, for every empty or whitespace-only input. -/
theorem c6_normalize_idempotent_empty :
    (∀ s : String, normalizeUrl (normalizeUrl s) = normalizeUrl s) ∧
    (∀ s : String, (∀ c ∈ s.data, pySpace c) → normalizeUrl s = "") := by
  constructor
  · intro s
    show (⟨normalizeL (normalizeUrl s).data⟩ : String) = ⟨normalizeL s.data⟩
    have hd : (normalizeUrl s).data = normalizeL s.data := rfl
    rw [hd, normalizeL_idem]
  · intro s h
    have hnil : stripAllWs s.data = [] := by
      simp only [stripAllWs, List.filter_eq_nil_iff]
      intro a ha
      simp [h a ha]
    show (⟨normalizeL s.data⟩ : String) = ""
    unfold normalizeL
    rw [if_pos hnil]

/-- Witness for C6: concrete instances, the whitespace-only hypothesis
discharged at a concrete string. -/
theorem c6_witness :
    (∀ c ∈ (" \t\n" : String).data, pySpace c) ∧ normalizeUrl " \t\n" = "" ∧
      normalizeUrl (normalizeUrl "https:example.com") = normalizeUrl "https:example.com" :=
  ⟨by decide, c6_normalize_idempotent_empty.2 " \t\n" (by decide),
    c6_normalize_idempotent_empty.1 "https:example.com"⟩

theorem candScore_nonneg (j : Json) : 0 ≤ candScore j := by
  unfold candScore
  cases j <;> dsimp only <;> split_ifs <;> omega

theorem scored_nonneg (scripts : List (Option Json)) :
    ∀ p ∈ scoredCandidates scripts, 0 ≤ p.2 := by
  intro p hp
  unfold scoredCandidates at hp
  rw [List.mem_bind] at hp
  obtain ⟨payload, _, hmem⟩ := hp
  rw [List.mem_map] at hmem
  obtain ⟨n, _, rfl⟩ := hmem
  exact candScore_nonneg n

theorem maxScoreSpec_ge {l : List (Candidate × Int)} {p : Candidate × Int} (h : p ∈ l) :
    p.2 ≤ maxScoreSpec l := by
  induction l with
  | nil => cases h
  | cons a rest ih =>
    rcases List.mem_cons.mp h with rfl | hm
    · simp [maxScoreSpec]
    · have := ih hm
      simp only [maxScoreSpec, List.foldr_cons] at *
      omega

theorem foldBest_char (l : List (Candidate × Int)) (b : Option Candidate) (s : Int)
    (hs : -1 ≤ s) :
    (l.foldl (fun acc p => if p.2 > acc.2 then (some p.1, p.2) else acc) (b, s)).1 =
      if maxScoreSpec l ≤ s then b else firstAtLeast (maxScoreSpec l) l := by
  induction l generalizing b s with
  | nil =>
    rw [List.foldl_nil, if_pos (by simp [maxScoreSpec]; omega)]
  | cons p rest ih =>
    have hm : maxScoreSpec (p :: rest) = max p.2 (maxScoreSpec rest) := rfl
    rw [List.foldl_cons]
    by_cases hp : p.2 > s
    · simp only [if_pos hp]
      rw [ih (some p.1) p.2 (by omega)]
      by_cases hr : maxScoreSpec rest ≤ p.2
      · rw [if_pos hr, if_neg (by rw [hm]; omega)]
        rw [firstAtLeast, if_pos (by rw [hm]; omega)]
      · rw [if_neg hr, if_neg (by rw [hm]; omega)]
        have hmax : maxScoreSpec (p :: rest) = maxScoreSpec rest := by rw [hm]; omega
        rw [firstAtLeast, if_neg (by rw [hm]; omega), hmax]
    · simp only [if_neg hp]
      rw [ih b s hs]
      by_cases hr : maxScoreSpec rest ≤ s
      · rw [if_pos hr, if_pos (by rw [hm]; omega)]
      · rw [if_neg hr, if_neg (by rw [hm]; omega)]
        have hmax : maxScoreSpec (p :: rest) = maxScoreSpec rest := by rw [hm]; omega
        rw [firstAtLeast, if_neg (by rw [hm]; omega), hmax]

/-- C5: the structured-data selection returns the fields of the single
candidate with the highest relevance score, keeping the first-found
candidate on ties (first in the visit order of the source walk); and on the
page of the spec with one node carrying only a name and another carrying
name, offers and image, the second node wins, as it also does when both
carry an explicit product type. -/
theorem c5_structured_scoring :
    (∀ scripts : List (Option Json),
        extractDetailsList scripts = (specBest (scoredCandidates scripts)).getD emptyCandidate) ∧
    extractDetailsList
        [some (Json.obj [("name", Json.str "A")]),
         some (Json.obj [("name", Json.str "B"),
           ("offers", Json.obj [("price", Json.str "10")]),
           ("image", Json.str "https://img.example/i.png")])]
      = { title := some "B", description := none, brand := none, price := some 10,
          currency := none, availability := none,
          image_url := some "https://img.example/i.png" } ∧
    (extractDetailsList
        [some (Json.arr [Json.obj [("@type", Json.str "Product"), ("name", Json.str "A")],
          Json.obj [("@type", Json.str "Product"), ("name", Json.str "B"),
            ("offers", Json.obj [("price", Json.str "10")]),
            ("image", Json.str "https://img.example/i.png")]])]).title = some "B" := by
  refine ⟨?_, by decide, by decide⟩
  intro scripts
  have hchar := foldBest_char (scoredCandidates scripts) none (-1) (le_refl _)
  have hfold : extractDetailsList scripts =
      ((bestFold (scoredCandidates scripts)).1).getD emptyCandidate := by
    unfold extractDetailsList
    rcases h2 : bestFold (scoredCandidates scripts) with ⟨b, sc⟩
    cases b <;> simp
  rw [hfold]
  have hbf : (bestFold (scoredCandidates scripts)).1 =
      if maxScoreSpec (scoredCandidates scripts) ≤ -1 then none
      else firstAtLeast (maxScoreSpec (scoredCandidates scripts)) (scoredCandidates scripts) :=
    hchar
  rw [hbf]
  by_cases hle : maxScoreSpec (scoredCandidates scripts) ≤ -1
  · rw [if_pos hle]
    -- with nonnegative scores the list is empty, so the spec side is also empty
    cases hl : scoredCandidates scripts with
    | nil => simp [specBest, firstAtLeast, hl]
    | cons p rest =>
      exfalso
      have h0 := scored_nonneg scripts p (hl ▸ List.mem_cons_self p rest)
      have hge := maxScoreSpec_ge (hl ▸ List.mem_cons_self p rest)
      omega
  · rw [if_neg hle]
    rfl

/-- C2 (counterexample): the claim states parse of the string minus-five is
null, but the og.py parser deletes the minus sign with every other
non-numeric character before parsing, so the value five is returned. -/
theorem c2_counterexample_minus_five : extractPrice "-5" = some 5 := by decide

/-- C2 (amended): the canonical price parses hold as listed except that the
minus-five string yields five (its sign is stripped by the cleaning step);
and for every input the parser returns null or a strictly positive value,
null exactly when the cleaned string fails the numeric parse or is not
positive. -/
theorem c2_price_roundtrip :
    extractPrice "1 234,56 ₽" = some ((123456 : Rat) / 100) ∧
    extractPrice "$1,234.56" = some ((123456 : Rat) / 100) ∧
    extractPrice "1.234.567" = some 1234567 ∧
    extractPrice "" = none ∧
    extractPrice "0" = none ∧
    extractPrice "-5" = some 5 ∧
    (∀ s : String, extractPrice s = none ∨ ∃ v, extractPrice s = some v ∧ 0 < v) := by
  have h1 : extractPrice "1 234,56 ₽" = some (Rat.divInt 123456 100) := by decide
  have h2 : extractPrice "$1,234.56" = some (Rat.divInt 123456 100) := by decide
  refine ⟨by rw [h1, Rat.divInt_eq_div]; norm_num, by rw [h2, Rat.divInt_eq_div]; norm_num,
    by decide, by decide, by decide, by decide, ?_⟩
  intro s
  rcases h : pricePreFloat s with _ | v
  · exact Or.inl (by simp [extractPrice, h])
  · by_cases hv : 0 < v
    · exact Or.inr ⟨v, by simp [extractPrice, h, hv], hv⟩
    · exact Or.inl (by simp [extractPrice, h, hv])

theorem pLookup_nil (k : String) : pLookup [] k = none := rfl

theorem pLookup_entry_skip {k k' : String} (h : (k == k') = false) (o : Option PVal)
    (rest : List (String × PVal)) : pLookup (entry k o ++ rest) k' = pLookup rest k' := by
  cases o with
  | none => rfl
  | some v => simp [entry, pLookup, List.find?_cons, h]

theorem pLookup_entry_hit (k : String) (o : Option PVal) (rest : List (String × PVal))
    (h : pLookup rest k = none) : pLookup (entry k o ++ rest) k = o := by
  cases o with
  | none => simpa [entry] using h
  | some v => simp [entry, pLookup, List.find?_cons]

theorem asS_map (o : Option String) : asS (o.map PVal.s) = o := by cases o <;> rfl

theorem asR_map (o : Option Rat) : asR (o.map PVal.r) = o := by cases o <;> rfl

theorem asI_map (o : Option Int) : asI (o.map PVal.i) = o := by cases o <;> rfl

theorem fromDict_toDict_extra (p : ProductInfo) (extra : List (String × PVal))
    (hx : ∀ k, k ∈ ["title", "price", "currency", "image_url", "description", "brand",
      "availability", "category", "rating", "reviews_count", "seller", "delivery_info"] →
      pLookup extra k = none) :
    ProductInfo.fromDict (ProductInfo.toDict p ++ extra) = p := by
  obtain ⟨t1, t2, t3, t4, t5, t6, t7, t8, t9, t10, t11, t12⟩ := p
  simp only [ProductInfo.fromDict, ProductInfo.toDict, List.append_assoc]
  have h1 := hx "title" (by simp)
  have h2 := hx "price" (by simp)
  have h3 := hx "currency" (by simp)
  have h4 := hx "image_url" (by simp)
  have h5 := hx "description" (by simp)
  have h6 := hx "brand" (by simp)
  have h7 := hx "availability" (by simp)
  have h8 := hx "category" (by simp)
  have h9 := hx "rating" (by simp)
  have h10 := hx "reviews_count" (by simp)
  have h11 := hx "seller" (by simp)
  have h12 := hx "delivery_info" (by simp)
  simp only [pLookup_entry_skip, pLookup_entry_hit,
    h1, h2, h3, h4, h5, h6, h7, h8, h9, h10, h11, h12,
    asS_map, asR_map, asI_map, String.reduceBEq]

/-- C10: serializing a product record and deserializing it back is the
identity, also when the stored dictionary carries an extra
underscore-prefixed bookkeeping key as the cache write adds. -/
theorem c10_product_roundtrip :
    ∀ (p : ProductInfo) (t : Int),
      ProductInfo.fromDict (ProductInfo.toDict p) = p ∧
      ProductInfo.fromDict (ProductInfo.toDict p ++ [("_cached_at", PVal.i t)]) = p := by
  intro p t
  constructor
  · have h := fromDict_toDict_extra p [] (by intro k _; rfl)
    simpa using h
  · exact fromDict_toDict_extra p [("_cached_at", PVal.i t)]
      (by intro k hk; fin_cases hk <;> rfl)

/-- C7: the rejection filter discards every title whose normalized text
contains a bot-challenge phrase, has length at most four, equals a bare
marketplace name or starts with one followed by a space; the two challenge
phrases of the spec are rejected, and a page whose only title signal is the
first of them yields a null title in the final record. -/
theorem c7_title_rejection :
    (∀ t : String,
      ((∃ p ∈ rejectTitleParts, containsSub p.data (normTitleL t) = true) ∨
       (normTitleL t).length ≤ 4 ∨
       (∃ g ∈ genericMarketplaceTitles, normTitleL t = g.data) ∨
       (∃ g ∈ genericMarketplaceTitles, (g.data ++ [' ']).isPrefixOf (normTitleL t) = true)) →
      isRejectedTitle t = true) ∧
    isRejectedTitle "Just a moment..." = true ∧
    isRejectedTitle "Доступ ограничен" = true ∧
    previewUrl ogOffSettings jamEnv "https://blocked.example/p" =
      nullResponse "https://blocked.example/p" := by
  refine ⟨?_, by decide, by decide, by decide⟩
  intro t h
  unfold isRejectedTitle
  split_ifs with a b c d e
  any_goals rfl
  exfalso
  rcases h with h | h | h | h
  · obtain ⟨p, hp, hc⟩ := h
    exact b (List.any_eq_true.mpr ⟨p, hp, hc⟩)
  · exact c h
  · obtain ⟨g, hg, hc⟩ := h
    exact d (List.any_eq_true.mpr ⟨g, hg, decide_eq_true hc⟩)
  · obtain ⟨g, hg, hc⟩ := h
    exact e (List.any_eq_true.mpr ⟨g, hg, hc⟩)

/-- Witness for C7: the general rejection conditions discharged at concrete
titles. -/
theorem c7_witness :
    ((∃ p ∈ rejectTitleParts, containsSub p.data (normTitleL "Just a moment...") = true) ∨
     (normTitleL "Just a moment...").length ≤ 4 ∨
     (∃ g ∈ genericMarketplaceTitles, normTitleL "Just a moment..." = g.data) ∨
     (∃ g ∈ genericMarketplaceTitles,
       (g.data ++ [' ']).isPrefixOf (normTitleL "Just a moment...") = true)) ∧
    isRejectedTitle "Just a moment..." = true :=
  ⟨by decide, c7_title_rejection.1 "Just a moment..." (by decide)⟩

/-- C1: the preview implementation, with every fallible step an oracle
handled as the source handles its try blocks, always returns a record, so
the route handler returns exactly that record and never an exception; the
cache read degrades every failure to a miss and the cache write to a
non-fatal false. -/
theorem c1_preview_and_cache_total :
    (∀ (st : OgSettings) (env : OgEnv) (u : String),
      ∃ r, previewUrlImplE st env u = Except.ok r ∧ previewUrl st env u = r) ∧
    (∀ (env : CacheEnv) (e : String),
      cacheGet { env with getRes := .error e } = none ∧
      cacheGet { env with conn := none } = none ∧
      cacheSet { env with setRes := .error e } = false ∧
      cacheSet { env with conn := none } = false) := by
  constructor
  · intro st env u
    have himpl : ∃ r, previewUrlImplE st env u = Except.ok r := by
      unfold previewUrlImplE
      repeat' split
      all_goals exact ⟨_, rfl⟩
    obtain ⟨r, hr⟩ := himpl
    exact ⟨r, hr, by unfold previewUrl; rw [hr]⟩
  · intro env e
    refine ⟨?_, ?_, ?_, ?_⟩
    · unfold cacheGet
      cases env.conn <;> rfl
    · rfl
    · unfold cacheSet
      cases env.conn <;> rfl
    · rfl

/-- C3 (counterexample): on the static page of the spec the returned record
does not carry the title Lamp: the normalized word has only four
characters, so the rejection filter discards it. -/
theorem c3_counterexample_lamp :
    (previewUrl ogOffSettings lampEnv "https://shop.example/lamp").title ≠ some "Lamp" := by
  decide

/-- C3 (amended): on the static page with only an og title meta Lamp and an
og price amount meta 1999, the pipeline returns price 1999 and the final
url, but the title is null rather than Lamp, because the four-character
candidate is discarded by the title rejection filter; every other field is
null as claimed. -/
theorem c3_lamp_scenario :
    previewUrl ogOffSettings lampEnv "https://shop.example/lamp" =
      ⟨"https://shop.example/lamp", none, some 1999, none, none, none, none, none⟩ := by
  decide

/-- C4 (code_bug): with a 403 fetch and a playwright helper producing the
all-None record, parse_product writes that record's dictionary, which is
empty, to the cache: the 401/403 escalation path performs its cache write
without the usefulness gate the ordinary path has, so a fully empty record
is cached. -/
theorem c4_empty_record_cached :
    (parseProduct true true blockedEnv "https://blocked.example/p").2 =
      [ProductInfo.toDict emptyProduct] ∧
    ProductInfo.toDict emptyProduct = [] ∧
    (parseProduct true true blockedEnv "https://blocked.example/p").1 = emptyProduct := by
  exact ⟨by decide, by decide, by decide⟩

theorem extractPrice_pos {s : String} {v : Rat} (h : extractPrice s = some v) : 0 < v := by
  unfold extractPrice at h
  rcases hp : pricePreFloat s with _ | w
  · simp only [hp] at h
    cases h
  · simp only [hp] at h
    split at h
    · cases h; assumption
    · cases h

theorem extractPriceOpt_pos {o : Option String} {v : Rat}
    (h : extractPriceOpt o = some v) : 0 < v := by
  cases o with
  | none => cases h
  | some s => exact extractPrice_pos h

theorem ifSome_pos {a b : Option Rat} {v : Rat}
    (ha : ∀ w, a = some w → 0 < w) (hb : ∀ w, b = some w → 0 < w)
    (h : (if a.isSome then a else b) = some v) : 0 < v := by
  by_cases hs : a.isSome
  · rw [if_pos hs] at h
    exact ha v h
  · rw [if_neg hs] at h
    exact hb v h

theorem offerPriceLoop_pos : ∀ (ks : List String) (fs : List (String × Json)) (v : Rat),
    offerPriceLoop ks fs = some v → 0 < v := by
  intro ks
  induction ks with
  | nil => intro fs v h; cases h
  | cons k rest ih =>
    intro fs v h
    rw [offerPriceLoop] at h
    repeat' split at h
    all_goals
      first
        | exact ih fs v h
        | (rename_i heq; cases h; exact extractPriceOpt_pos heq)

theorem offerStep_pos {st : OfferState} {j : Json}
    (hst : ∀ w, st.price = some w → 0 < w) :
    ∀ v, (offerStep st j).price = some v → 0 < v := by
  intro v h
  cases j with
  | obj fs =>
    dsimp only [offerStep] at h
    rcases hp : st.price with _ | p
    · simp only [hp] at h
      exact offerPriceLoop_pos _ _ v h
    · simp only [hp, Option.some.injEq] at h
      exact h ▸ hst p hp
  | null => exact hst v h
  | bool b => exact hst v h
  | num n => exact hst v h
  | str s => exact hst v h
  | arr xs => exact hst v h

theorem offerFold_pos (l : List Json) :
    ∀ st : OfferState, (∀ w, st.price = some w → 0 < w) →
    ∀ v, (l.foldl offerStep st).price = some v → 0 < v := by
  induction l with
  | nil => intro st hst v h; exact hst v h
  | cons a rest ih =>
    intro st hst v h
    rw [List.foldl_cons] at h
    exact ih (offerStep st a) (fun w hw => offerStep_pos hst w hw) v h

theorem extractOfferDetails_pos {j : Json} {v : Rat}
    (h : (extractOfferDetails j).price = some v) : 0 < v := by
  unfold extractOfferDetails at h
  exact offerFold_pos _ _ (fun w hw => by cases hw) v h

theorem mkCandidate_price_pos {j : Json} {v : Rat}
    (h : (mkCandidate j).price = some v) : 0 < v := by
  cases j with
  | obj fs =>
    dsimp only [mkCandidate] at h
    exact extractOfferDetails_pos h
  | null => cases h
  | bool b => cases h
  | num n => cases h
  | str s => cases h
  | arr xs => cases h

theorem foldl_best_cases (l : List (Candidate × Int)) :
    ∀ acc : Option Candidate × Int,
      l.foldl (fun acc p => if p.2 > acc.2 then (some p.1, p.2) else acc) acc = acc ∨
      ∃ p ∈ l, l.foldl (fun acc p => if p.2 > acc.2 then (some p.1, p.2) else acc) acc =
        (some p.1, p.2) := by
  induction l with
  | nil => intro acc; exact Or.inl rfl
  | cons a rest ih =>
    intro acc
    simp only [List.foldl_cons]
    rcases ih (if a.2 > acc.2 then (some a.1, a.2) else acc) with h | ⟨p, hp, h⟩
    · by_cases hc : a.2 > acc.2
      · right
        exact ⟨a, List.mem_cons_self a rest, by rw [h, if_pos hc]⟩
      · left
        rw [h, if_neg hc]
    · right
      exact ⟨p, List.mem_cons_of_mem a hp, h⟩

theorem bestFold_some_mem {l : List (Candidate × Int)} {c : Candidate} {s : Int}
    (h : bestFold l = (some c, s)) : (c, s) ∈ l := by
  unfold bestFold at h
  rcases foldl_best_cases l (none, -1) with h0 | ⟨p, hp, h0⟩
  · rw [h0] at h
    injection h with h1 h2
    cases h1
  · rw [h0] at h
    have h1 : some p.1 = some c := congrArg Prod.fst h
    have h2 : p.2 = s := congrArg Prod.snd h
    have h1' : p.1 = c := by injection h1
    have hpc : p = (c, s) := by
      cases p
      cases h1'
      cases h2
      rfl
    exact hpc ▸ hp

theorem scoredCandidates_mem {scripts : List (Option Json)} {c : Candidate} {s : Int}
    (h : (c, s) ∈ scoredCandidates scripts) : ∃ n, c = mkCandidate n := by
  unfold scoredCandidates at h
  rw [List.mem_bind] at h
  obtain ⟨p, hp, hm⟩ := h
  rw [List.mem_map] at hm
  obtain ⟨n, hn, he⟩ := hm
  exact ⟨n, (congrArg Prod.fst he).symm⟩

theorem extractDetailsList_price_pos {scripts : List (Option Json)} {v : Rat}
    (h : (extractDetailsList scripts).price = some v) : 0 < v := by
  unfold extractDetailsList at h
  rcases hb : bestFold (scoredCandidates scripts) with ⟨b, sc⟩
  rw [hb] at h
  cases b with
  | none => cases h
  | some c =>
    obtain ⟨n, rfl⟩ := scoredCandidates_mem (bestFold_some_mem hb)
    exact mkCandidate_price_pos h

theorem priceMetaLoop_pos : ∀ (fs : List (Soup → Option MetaTag)) (soup : Soup) (v : Rat),
    priceMetaLoop soup fs = some v → 0 < v := by
  intro fs
  induction fs with
  | nil => intro soup v h; cases h
  | cons f rest ih =>
    intro soup v h
    rw [priceMetaLoop] at h
    repeat' split at h
    all_goals
      first
        | exact ih soup v h
        | (rename_i heq; cases h; exact extractPrice_pos heq)

theorem priceSelLoop_pos : ∀ (sels : List String) (soup : Soup) (v : Rat),
    priceSelLoop soup sels = some v → 0 < v := by
  intro sels
  induction sels with
  | nil => intro soup v h; cases h
  | cons sel rest ih =>
    intro soup v h
    rw [priceSelLoop] at h
    repeat' split at h
    all_goals
      first
        | exact ih soup v h
        | (rename_i heq; cases h; exact extractPrice_pos heq)

theorem staticPrice_pos {soup : Soup} {details : Candidate} {v : Rat}
    (hd : ∀ w, details.price = some w → 0 < w)
    (h : staticPrice soup details = some v) : 0 < v := by
  unfold staticPrice at h
  rcases hm : priceMetaLoop soup priceMetaFinders with _ | p
  · simp only [hm] at h
    rcases hdp : details.price with _ | q
    · simp only [hdp] at h
      exact priceSelLoop_pos _ _ v h
    · simp only [hdp, Option.some.injEq] at h
      exact h ▸ hd q hdp
  · simp only [hm, Option.some.injEq] at h
    exact h ▸ priceMetaLoop_pos _ _ p hm

theorem staticResponse_price_pos {st : OgSettings} {soup : Soup} {finalUrl : String} {v : Rat}
    (h : (staticResponse st soup finalUrl).price = some v) : 0 < v := by
  dsimp only [staticResponse] at h
  exact staticPrice_pos (fun w hw => extractDetailsList_price_pos hw) h

theorem browserPreview_price_pos {pg : PageOracle} {r : OgPreviewResponse} {v : Rat}
    (h : browserPreview pg = some r) (hp : r.price = some v) : 0 < v := by
  unfold browserPreview at h
  split at h
  · cases h
  · rw [Option.some.injEq] at h
    subst h
    unfold browserPriceV at hp
    exact ifSome_pos (fun w hw => extractPriceOpt_pos hw)
      (fun w hw => extractDetailsList_price_pos hw) hp

theorem browserCall_price_pos {env : OgEnv} {u : String} {br : OgPreviewResponse} {v : Rat}
    (h : browserCall env u = some br) (hp : br.price = some v) : 0 < v := by
  unfold browserCall at h
  rcases hb : env.browserPage u with _ | pg
  · simp only [hb] at h
    cases h
  · simp only [hb] at h
    exact browserPreview_price_pos h hp

theorem mergeBrowser_price_pos {br resp : OgPreviewResponse} {v : Rat}
    (hb : ∀ w, br.price = some w → 0 < w) (hr : ∀ w, resp.price = some w → 0 < w)
    (h : (mergeBrowser br resp).price = some v) : 0 < v :=
  ifSome_pos hb hr h

theorem earlyBrowserR_price_pos {st : OgSettings} {env : OgEnv} {targetUrl : String}
    {r : OgPreviewResponse} {v : Rat}
    (h : earlyBrowserR st env targetUrl = some r) (hp : r.price = some v) : 0 < v := by
  unfold earlyBrowserR at h
  split at h
  · split at h
    · rename_i br hbr
      split at h
      · cases h
        exact browserCall_price_pos hbr hp
      · cases h
    · cases h
  · cases h

theorem escalR_price_pos {st : OgSettings} {env : OgEnv} {status : Nat} {finalUrl : String}
    {r : OgPreviewResponse} {v : Rat}
    (h : escalR st env status finalUrl = some r) (hp : r.price = some v) : 0 < v := by
  unfold escalR at h
  split at h
  · split at h
    · rename_i br hbr
      cases h
      exact browserCall_price_pos hbr hp
    · cases h
  · cases h

theorem rescueR_price_pos {preferBrowser : Bool} {env : OgEnv} {finalUrl : String}
    {title : Option String} {price : Option Rat} {image : Option String}
    {r : OgPreviewResponse} {v : Rat}
    (h : rescueR preferBrowser env finalUrl title price image = some r)
    (hp : r.price = some v) : 0 < v := by
  unfold rescueR at h
  split at h
  · split at h
    · rename_i br hbr
      split at h
      · cases h
        exact browserCall_price_pos hbr hp
      · cases h
    · cases h
  · cases h

theorem previewUrlImplE_price_pos {st : OgSettings} {env : OgEnv} {u : String}
    {r : OgPreviewResponse} {v : Rat}
    (h : previewUrlImplE st env u = .ok r) (hp : r.price = some v) : 0 < v := by
  unfold previewUrlImplE at h
  split at h
  · cases h
    cases hp
  · split at h
    · rename_i rEB hEB
      cases h
      exact earlyBrowserR_price_pos hEB hp
    · split at h
      · cases h
        cases hp
      · rename_i resp hresp
        split at h
        · rename_i rES hES
          cases h
          exact escalR_price_pos hES hp
        · split at h
          · cases h
            cases hp
          · rename_i soup hsoup
            split at h
            · rename_i rR hR
              cases h
              exact rescueR_price_pos hR hp
            · split at h
              · split at h
                · rename_i br hbr
                  cases h
                  exact mergeBrowser_price_pos
                    (fun w hw => browserCall_price_pos hbr hw)
                    (fun w hw => staticResponse_price_pos hw) hp
                · cases h
                  exact staticResponse_price_pos hp
              · cases h
                exact staticResponse_price_pos hp

/-- C9 (counterexample): the enhanced parser's JSON-LD offers path converts
the raw offers price with a plain float conversion and no positivity gate,
so a product node whose offers dict carries the literal minus five yields a
record whose price field is minus five. -/
theorem c9_counterexample_negative_offer :
    (parseProduct false false negPriceEnv "https://shop.example/neg").1.price =
      some (-5) := by
  decide

/-- C9 (amended): in every record the og.py preview pipeline returns, over
every oracle environment and input url, a non-null price is strictly
positive, because every price on that pipeline passes the positivity gate
of its price parser; the enhanced parser's JSON-LD offers path does not
share the invariant. -/
theorem c9_price_positive :
    ∀ (st : OgSettings) (env : OgEnv) (u : String) (v : Rat),
      (previewUrl st env u).price = some v → 0 < v := by
  intro st env u v hp
  unfold previewUrl at hp
  cases hi : previewUrlImplE st env u with
  | error e =>
    rw [hi] at hp
    cases hp
  | ok r =>
    rw [hi] at hp
    exact previewUrlImplE_price_pos hi hp

/-- Witness for C9: the amended positivity applied to the concrete lamp
page environment, whose returned price is 1999. -/
theorem c9_witness :
    (previewUrl ogOffSettings lampEnv "https://shop.example/lamp").price = some 1999 ∧
    (0 : Rat) < 1999 :=
  ⟨by decide,
   c9_price_positive ogOffSettings lampEnv "https://shop.example/lamp" 1999 (by decide)⟩

theorem removeParamAux_nil (p : List Char) : ∀ fuel, removeParamAux p fuel [] = [] := by
  intro fuel
  cases fuel <;> rfl

theorem removeParamAux_id (p : List Char) :
    ∀ (fuel : Nat) (l : List Char), (∀ c ∈ l, c ≠ '?' ∧ c ≠ '&') →
      removeParamAux p fuel l = l := by
  intro fuel
  induction fuel with
  | zero => intro l _; rfl
  | succ n ih =>
    intro l h
    cases l with
    | nil => rfl
    | cons c rest =>
      rw [removeParamAux,
        if_neg (by have hc := h c (List.mem_cons_self c rest); simp [hc.1, hc.2]),
        ih rest (fun x hx => h x (List.mem_cons_of_mem _ hx))]

theorem removeParamAux_skip (q : List Char) :
    ∀ (fuel : Nat) (base tail : List Char),
      (∀ c ∈ base, c ≠ '?' ∧ c ≠ '&') →
      (q ++ ['=']).isPrefixOf tail = false →
      (∀ c ∈ tail, c ≠ '?' ∧ c ≠ '&') →
      removeParamAux q fuel (base ++ '?' :: tail) = base ++ '?' :: tail := by
  intro fuel
  induction fuel with
  | zero => intro base tail _ _ _; rfl
  | succ n ih =>
    intro base tail hb hq ht
    cases base with
    | nil =>
      simp only [List.nil_append]
      rw [removeParamAux, if_neg (by simp [hq]), removeParamAux_id q n tail ht]
    | cons c bs =>
      simp only [List.cons_append]
      rw [removeParamAux,
        if_neg (by have hc := hb c (List.mem_cons_self c bs); simp [hc.1, hc.2]),
        ih bs tail (fun x hx => hb x (List.mem_cons_of_mem _ hx)) hq ht]

theorem isPrefixOf_self_append : ∀ (l r : List Char), l.isPrefixOf (l ++ r) = true := by
  intro l r
  induction l with
  | nil => simp [List.isPrefixOf]
  | cons c cs ih => simp [List.isPrefixOf, ih]

theorem removeParamAux_hit (p : List Char) :
    ∀ (fuel : Nat) (base v : List Char),
      (∀ c ∈ base, c ≠ '?' ∧ c ≠ '&') →
      (∀ c ∈ v, c ≠ '&') →
      base.length < fuel →
      removeParamAux p fuel (base ++ '?' :: (p ++ '=' :: v)) = base := by
  intro fuel
  induction fuel with
  | zero => intro base v _ _ hlt; exact absurd hlt (Nat.not_lt_zero _)
  | succ n ih =>
    intro base v hb hv hlt
    cases base with
    | nil =>
      simp only [List.nil_append]
      have hpre : (p ++ ['=']).isPrefixOf (p ++ '=' :: v) = true := by
        have he : p ++ '=' :: v = (p ++ ['=']) ++ v := by simp
        rw [he]
        exact isPrefixOf_self_append (p ++ ['=']) v
      rw [removeParamAux, if_pos (by simp [hpre])]
      have hdrop : (p ++ '=' :: v).drop (p.length + 1) = v := by
        have he : (p ++ '=' :: v) = (p ++ ['=']) ++ v := by simp
        rw [he, List.drop_left' (by simp)]
      rw [hdrop]
      have hdw : v.dropWhile (fun x => x ≠ '&') = [] :=
        List.dropWhile_eq_nil_iff.mpr (fun x hx => by simp [hv x hx])
      rw [hdw, removeParamAux_nil]
    | cons c bs =>
      simp only [List.cons_append]
      rw [removeParamAux,
        if_neg (by have hc := hb c (List.mem_cons_self c bs); simp [hc.1, hc.2]),
        ih bs v (fun x hx => hb x (List.mem_cons_of_mem _ hx)) hv
          (by simp only [List.length_cons] at hlt; omega)]

theorem removeParam_skip (q : String) (base tail : List Char)
    (hb : ∀ c ∈ base, c ≠ '?' ∧ c ≠ '&')
    (hq : (q.data ++ ['=']).isPrefixOf tail = false)
    (ht : ∀ c ∈ tail, c ≠ '?' ∧ c ≠ '&') :
    removeParam q (base ++ '?' :: tail) = base ++ '?' :: tail :=
  removeParamAux_skip q.data _ base tail hb hq ht

theorem removeParam_hit (p : String) (base v : List Char)
    (hb : ∀ c ∈ base, c ≠ '?' ∧ c ≠ '&')
    (hv : ∀ c ∈ v, c ≠ '&') :
    removeParam p (base ++ '?' :: (p.data ++ '=' :: v)) = base := by
  unfold removeParam
  exact removeParamAux_hit p.data _ base v hb hv
    (by simp only [List.length_append, List.length_cons]; omega)

theorem removeParam_id (q : String) (l : List Char) (h : ∀ c ∈ l, c ≠ '?' ∧ c ≠ '&') :
    removeParam q l = l :=
  removeParamAux_id q.data _ l h

theorem foldRemove_id : ∀ (ps : List String) (l : List Char),
    (∀ c ∈ l, c ≠ '?' ∧ c ≠ '&') →
    ps.foldl (fun acc q => removeParam q acc) l = l := by
  intro ps
  induction ps with
  | nil => intro l _; rfl
  | cons q rest ih =>
    intro l h
    simp only [List.foldl_cons]
    rw [removeParam_id q l h]
    exact ih l h

theorem foldRemove_strip (p : String) : ∀ (ps : List String) (base v : List Char),
    (∀ c ∈ base, c ≠ '?' ∧ c ≠ '&') →
    (∀ c ∈ p.data, c ≠ '?' ∧ c ≠ '&') →
    (∀ c ∈ v, c ≠ '?' ∧ c ≠ '&') →
    p ∈ ps →
    (∀ q ∈ ps, q ≠ p → (q.data ++ ['=']).isPrefixOf (p.data ++ '=' :: v) = false) →
    ps.foldl (fun acc q => removeParam q acc) (base ++ '?' :: (p.data ++ '=' :: v)) = base := by
  intro ps
  induction ps with
  | nil => intro base v _ _ _ hmem _; cases hmem
  | cons q rest ih =>
    intro base v hb hp hv hmem hsep
    simp only [List.foldl_cons]
    by_cases hqp : q = p
    · subst hqp
      rw [removeParam_hit q base v hb (fun x hx => (hv x hx).2)]
      exact foldRemove_id rest base hb
    · have ht : ∀ c ∈ p.data ++ '=' :: v, c ≠ '?' ∧ c ≠ '&' := by
        intro x hx
        rcases List.mem_append.mp hx with h1 | h2
        · exact hp x h1
        · rcases List.mem_cons.mp h2 with hx2 | h3
          · subst hx2; exact ⟨by decide, by decide⟩
          · exact hv x h3
      rw [removeParam_skip q base _ hb (hsep q (List.mem_cons_self q rest) hqp) ht]
      have hmem2 : p ∈ rest := by
        rcases List.mem_cons.mp hmem with hx | hm
        · exact absurd hx.symm hqp
        · exact hm
      exact ih base v hb hp hv hmem2
        (fun q2 hq2 hne => hsep q2 (List.mem_cons_of_mem q hq2) hne)

theorem stripTrailQA_id {l : List Char} (h : ∀ c ∈ l, c ≠ '?' ∧ c ≠ '&') :
    stripTrailQA l = l := by
  unfold stripTrailQA
  split
  · rename_i c rest hr
    have hcl : c ∈ l := List.mem_reverse.mp (hr ▸ List.mem_cons_self c rest)
    rw [if_neg (by have := h c hcl; simp [this.1, this.2])]
  · rfl

theorem fixQAAux_id : ∀ (fuel : Nat) (l : List Char), (∀ c ∈ l, c ≠ '?') →
    fixQAAux fuel l = l := by
  intro fuel
  induction fuel with
  | zero => intro l _; rfl
  | succ n ih =>
    intro l h
    cases l with
    | nil => rfl
    | cons c rest =>
      rw [fixQAAux,
        if_neg (by have := h c (List.mem_cons_self c rest); simp [this]),
        ih rest (fun x hx => h x (List.mem_cons_of_mem _ hx))]

theorem fixQA_id {l : List Char} (h : ∀ c ∈ l, c ≠ '?') : fixQA l = l :=
  fixQAAux_id _ l h

theorem rstripSlash_id {l : List Char} (h : l.getLast? ≠ some '/') : rstripSlash l = l := by
  unfold rstripSlash
  cases hr : l.reverse with
  | nil =>
    have h0 := List.reverse_eq_nil_iff.mp hr
    subst h0
    rfl
  | cons c rest =>
    have hc : c ≠ '/' := by
      intro hcc
      apply h
      rw [← List.head?_reverse, hr, hcc]
      rfl
    rw [List.dropWhile_cons, if_neg (by simp [hc]), ← hr, List.reverse_reverse]

theorem urlLast_ne {base pd v : List Char} (hv : ∀ c ∈ v, c ≠ '/') :
    (base ++ '?' :: (pd ++ '=' :: v)).getLast? ≠ some '/' := by
  rw [List.getLast?_append_cons]
  rw [show ('?' :: (pd ++ '=' :: v)) = ('?' :: pd) ++ '=' :: v from rfl]
  rw [List.getLast?_append_cons]
  cases v with
  | nil => simp
  | cons a t =>
    rw [List.getLast?_cons_cons]
    intro hl
    exact hv _ (List.mem_of_getLast?_eq_some hl) rfl

theorem cacheNormalize_strip (p : String) (hp : p ∈ trackingParams) :
    ∀ (base v : List Char),
      (∀ c ∈ base, c ≠ '?' ∧ c ≠ '&') →
      base.getLast? ≠ some '/' →
      (∀ c ∈ v, c ≠ '?' ∧ c ≠ '&' ∧ c ≠ '/') →
      cacheNormalizeUrl ⟨base ++ '?' :: (p.data ++ '=' :: v)⟩ = cacheNormalizeUrl ⟨base⟩ := by
  fin_cases hp
  all_goals
    (intro base v hb hbl hv
     have hv2 : ∀ c ∈ v, c ≠ '?' ∧ c ≠ '&' := fun c hc => ⟨(hv c hc).1, (hv c hc).2.1⟩
     have hvs : ∀ c ∈ v, c ≠ '/' := fun c hc => (hv c hc).2.2
     unfold cacheNormalizeUrl
     dsimp only
     refine congrArg (fun l => (⟨l⟩ : String)) ?_
     rw [rstripSlash_id (urlLast_ne hvs), rstripSlash_id hbl,
       foldRemove_strip _ trackingParams base v hb (by decide) hv2 (by decide)
         (by intro q hq hqp; fin_cases hq <;> first | (exact absurd rfl hqp) | rfl),
       foldRemove_id trackingParams base hb])

/-- C8: for every hex digest function, the cache key of a url extended by a
tracking parameter from the stripped list equals the cache key of the bare
url, for every base url free of query separators and not ending in a slash
and every separator-free value; in particular the utm source example of the
spec shares its key with the bare url, so the second request hits the entry
the first populated. -/
theorem c8_cache_key_tracking :
    (∀ (md5hex : String → String) (p : String), p ∈ trackingParams →
      ∀ (base v : List Char),
        (∀ c ∈ base, c ≠ '?' ∧ c ≠ '&') →
        base.getLast? ≠ some '/' →
        (∀ c ∈ v, c ≠ '?' ∧ c ≠ '&' ∧ c ≠ '/') →
        getKey md5hex ⟨base ++ '?' :: (p.data ++ '=' :: v)⟩ = getKey md5hex ⟨base⟩) ∧
    (∀ md5hex : String → String,
      getKey md5hex "https://x.com/p?utm_source=a" = getKey md5hex "https://x.com/p") := by
  constructor
  · intro md5hex p hp base v hb hbl hv
    unfold getKey
    rw [cacheNormalize_strip p hp base v hb hbl hv]
  · intro md5hex
    unfold getKey
    rw [show cacheNormalizeUrl "https://x.com/p?utm_source=a" =
      cacheNormalizeUrl "https://x.com/p" from by decide]

/-- Witness for C8: the key equality applied with the identity digest to
the utm source example written in its decomposed form. -/
theorem c8_witness :
    getKey (fun s => s)
        ⟨"https://x.com/p".data ++ '?' :: ("utm_source".data ++ '=' :: "a".data)⟩ =
      getKey (fun s => s) ⟨"https://x.com/p".data⟩ :=
  c8_cache_key_tracking.1 (fun s => s) "utm_source" (by decide) "https://x.com/p".data
    "a".data (by decide) (by decide) (by decide)

end WishShare
